import Mathlib

/-! The malloc tracer runtime of gperftools (`src/malloc_tracer.cc`).

A shallow embedding of the per-thread tracer, the token scheme, the dump
protocol, the registry of `Storage` cells and the TLS teardown, followed by
theorems about them.

Conventions of the embedding.

* Pointers into `buf_storage_` are byte offsets from `buf_storage_`, so
  `buf_storage_` itself is offset `0`.
* `uint64_t` values are natural numbers; every operation that can wrap is
  reduced modulo `2 ^ 64` explicitly.
* The clock and the CPU query are inputs: the state carries the list of the
  readings still to come, and each call consumes one.
* The sink is the sequence of `AppendData` calls. A call whose bytes are the
  varint encoding of an encoder tuple is recorded by the arguments given to the
  encoder; a call that copies raw buffer bytes is recorded with those bytes.
* The spin lock is not represented: every operation below is one critical
  section, or runs on the owning thread, and is executed atomically.
-/

namespace tcmalloc

/-! ## Constants and machine arithmetic -/

/-- The number of tokens in a block, `kTokenSize = 1 << 10`. -/
def kTokenSize : Nat := 1024

/-- The number of values of a `uint64_t`. -/
def U64 : Nat := 18446744073709551616

/-- Subtraction of `uint64_t` values, wrapping modulo `2 ^ 64`. -/
def sub64 (a b : Nat) : Nat := (a % U64 + (U64 - b % U64)) % U64

/-- The difference `a - b` of two pointers into the same buffer, converted to
`uint64_t`: the plain difference when `b ≤ a`, wrapped around otherwise. -/
def ptr_diff (a b : Nat) : Nat := if b ≤ a then a - b else U64 - (b - a)

/-- The byte pattern `0xfe` repeated over eight bytes, what `memset(this, 0xfe, ...)`
leaves in a 64-bit field. -/
def FE64 : Nat := 0xfefefefefefefefe

/-- Modelled from the spec: `MallocTraceEncoder` and `AltVarintCodec` are declared in
headers that are not among the sources. The spec describes them as pure functions on
integer tuples with the constants `kTSMask` and `kMaxSize`; they are taken as
parameters. Only the functions whose output is copied into a tracer's own buffer are
needed as functions; the tuples that go straight to the sink are recorded by their
arguments (see `SinkItem`). -/
structure Codec where
  /-- The worst-case length of one varint, `AltVarintCodec::kMaxSize`. -/
  kMaxSize : Nat
  /-- The timestamp mask, `MallocTraceEncoder::kTSMask`. -/
  kTSMask : Nat
  /-- The bytes `AltVarintCodec::encode_unsigned` writes for one value. -/
  encode_unsigned : Nat → List Nat
  /-- The pair computed by `MallocTraceEncoder::encode_token(base, ts_and_cpu)`. -/
  encode_token : Nat → Nat → Nat × Nat
  /-- The value of `MallocTraceEncoder::bundle_ts_and_cpu(ts, cpu)`. -/
  bundle_ts_and_cpu : Nat → Int → Nat

/-! ## The sink -/

/-- One `AppendData` call on the `TracerBuffer`. -/
inductive SinkItem where
  /-- The four bytes of `kMagic` written by `DoSetupTLS`. -/
  | magic
  /-- The varints of `encode_buffer(thread_id, ts_and_cpu, size)`. -/
  | buffer_header (thread_id ts_and_cpu size : Nat)
  /-- A raw copy of `size` bytes of a tracer's buffer. -/
  | raw (bytes : List Nat)
  /-- The varints of `encode_sync_barrier(ts_and_cpu)`. -/
  | sync_barrier (ts_and_cpu : Nat)
  /-- The varints of `encode_death(thread_id, ts_and_cpu)`. -/
  | death (thread_id ts_and_cpu : Nat)
  /-- The varint of `encode_end()`. -/
  | end_marker
  deriving DecidableEq

/-! ## File-level state -/

/-- The file-scope variables of `malloc_tracer.cc` that the tracer operations use,
together with the sink behind `tracer_buffer` and the readings the clock and
`sched_getcpu` will return. -/
structure Globals where
  token_counter : Nat
  thread_id_counter : Nat
  thread_dump_written : Nat
  base_ts : Nat
  no_more_writes : Bool
  /-- What has been appended to `tracer_buffer`, oldest first. -/
  sink : List SinkItem
  /-- The answer of `tracer_buffer->IsFullySetup()`. -/
  fully_setup : Bool
  /-- Whether `tracer_buffer->Finalize()` has run. -/
  finalized : Bool
  /-- The raw `CLOCK_MONOTONIC` readings, in nanoseconds, still to come. -/
  clock : List Nat
  /-- The results of `sched_getcpu()` still to come. -/
  cpus : List Int
  deriving DecidableEq

/-- The per-thread tracer object. Cursors are offsets into `buf_storage`. -/
structure MallocTracer where
  thread_id : Nat
  buf_storage : List Nat
  buf_ptr : Nat
  buf_end : Nat
  signal_saved_buf_ptr : Nat
  signal_snapshot_buf_ptr : Nat
  token_base : Nat
  counter : Nat
  prev_size : Nat
  prev_token : Nat
  last_cpu : Int
  destroy_count : Nat
  deriving DecidableEq

/-- The function `get_nanos`: the next clock reading minus `base_ts`, as a `uint64_t`. -/
def get_nanos (g : Globals) : Nat × Globals :=
  (sub64 (g.clock.headD 0) g.base_ts, { g with clock := g.clock.tail })

/-- The library call `sched_getcpu()`: the next CPU reading. -/
def sched_getcpu (g : Globals) : Int × Globals :=
  (g.cpus.headD 0, { g with cpus := g.cpus.tail })

/-- The function `append_buf_locked`: hand one write to the sink unless
`no_more_writes` is set. -/
def append_buf_locked (g : Globals) (item : SinkItem) : Globals :=
  if g.no_more_writes then g else { g with sink := g.sink ++ [item] }

/-- Overwrite `bytes.length` bytes of `buf` starting at offset `pos`. -/
def writeAt (buf : List Nat) (pos : Nat) (bytes : List Nat) : List Nat :=
  buf.take pos ++ bytes ++ buf.drop (pos + bytes.length)

/-- The bytes `[pos, pos + size)` of `buf`. -/
def readAt (buf : List Nat) (pos size : Nat) : List Nat :=
  (buf.drop pos).take size

namespace MallocTracer

/-- The method `UpdateTSAndCPU`. -/
def UpdateTSAndCPU (c : Codec) (g : Globals) (t : MallocTracer) :
    Nat × Globals × MallocTracer :=
  let ts := get_nanos g
  let cpu := sched_getcpu ts.2
  (c.bundle_ts_and_cpu ts.1 cpu.1, cpu.2, { t with last_cpu := cpu.1 })

/-- The method `RefreshBufferInnerLocked`: the chunk header, then `size` raw bytes
starting at `signal_saved_buf_ptr_`. -/
def RefreshBufferInnerLocked (g : Globals) (t : MallocTracer) (size ts_and_cpu : Nat) :
    Globals :=
  let g1 := append_buf_locked g (.buffer_header t.thread_id ts_and_cpu size)
  append_buf_locked g1 (.raw (readAt t.buf_storage t.signal_saved_buf_ptr size))

/-- The method `RefreshBuffer`. `SetBufPtr` is declared in the missing header and is
taken to store its argument into `buf_ptr_`. -/
def RefreshBuffer (c : Codec) (g : Globals) (t : MallocTracer) : Globals × MallocTracer :=
  let r :=
    if t.buf_ptr ≠ t.signal_saved_buf_ptr then
      let u := UpdateTSAndCPU c g t
      (RefreshBufferInnerLocked u.2.1 u.2.2 (ptr_diff t.buf_ptr t.signal_saved_buf_ptr) u.1,
       u.2.2)
    else (g, t)
  (r.1, { r.2 with buf_ptr := 0, signal_saved_buf_ptr := 0 })

/-- The method `DumpFromSaverThread`. -/
def DumpFromSaverThread (c : Codec) (g : Globals) (t : MallocTracer) :
    Globals × MallocTracer :=
  let s := ptr_diff t.signal_snapshot_buf_ptr t.signal_saved_buf_ptr
  if s = 0 then (g, t)
  else
    let ts := get_nanos g
    let tscpu := c.bundle_ts_and_cpu ts.1 t.last_cpu
    let g2 := RefreshBufferInnerLocked ts.2 t s tscpu
    ({ g2 with thread_dump_written := (g2.thread_dump_written + s) % U64 },
     { t with signal_saved_buf_ptr := t.signal_snapshot_buf_ptr })

/-- Modelled from the spec: the copy step of `append`, which lives in the missing
header `malloc_tracer.h`: the bytes of one encoded event are stored at `buf_ptr` and
`buf_ptr` moves past them. -/
def AppendBytes (t : MallocTracer) (bytes : List Nat) : MallocTracer :=
  { t with buf_storage := writeAt t.buf_storage t.buf_ptr bytes,
           buf_ptr := t.buf_ptr + bytes.length }

/-- Modelled from the spec: `AppendWords` is defined in the missing header
`malloc_tracer.h`. The spec's `append` "copies one encoded event into `buf_storage`;
if `buf_ptr > buf_end`, calls `refresh_buffer()` first"; the event is the varint
encoding of the given words. -/
def AppendWords (c : Codec) (g : Globals) (t : MallocTracer) (words : List Nat) :
    Globals × MallocTracer :=
  let r := if t.buf_ptr > t.buf_end then RefreshBuffer c g t else (g, t)
  (r.1, r.2.AppendBytes (words.map c.encode_unsigned).flatten)

/-- The method `RefreshTokenAndDec`. -/
def RefreshTokenAndDec (c : Codec) (g : Globals) (t : MallocTracer) :
    Globals × MallocTracer :=
  let base := (g.token_counter + kTokenSize) % U64
  let g1 := { g with token_counter := base }
  let t1 := { t with token_base := base, counter := kTokenSize }
  let u := UpdateTSAndCPU c g1 t1
  let enc := c.encode_token (sub64 base kTokenSize) u.1
  AppendWords c u.2.1 u.2.2 [enc.1, enc.2]

/-- The method `RefreshToken`. -/
def RefreshToken (c : Codec) (g : Globals) (t : MallocTracer) : Globals × MallocTracer :=
  let r := RefreshTokenAndDec c g t
  (r.1, { r.2 with counter := r.2.counter + 1 })

/-- The constructor `MallocTracer(thread_id)`, run on the memory `mem`. The buffer
bytes are not initialised, and `sizeof(buf_storage_)` is the length of the buffer. -/
def construct (c : Codec) (g : Globals) (mem : MallocTracer) (thread_id : Nat) :
    Globals × MallocTracer :=
  RefreshToken c g
    { mem with
      buf_ptr := 0
      buf_end := mem.buf_storage.length - c.kMaxSize
      thread_id := thread_id
      token_base := 0
      counter := 0
      prev_size := 0
      prev_token := 0
      last_cpu := -1
      signal_snapshot_buf_ptr := 0
      signal_saved_buf_ptr := 0
      destroy_count := 0 }

/-- What `memset(this, 0xfe, sizeof(*this))` leaves of a tracer. -/
def poisoned (t : MallocTracer) : MallocTracer :=
  { thread_id := FE64
    buf_storage := List.replicate t.buf_storage.length 0xfe
    buf_ptr := FE64
    buf_end := FE64
    signal_saved_buf_ptr := FE64
    signal_snapshot_buf_ptr := FE64
    token_base := FE64
    counter := FE64
    prev_size := FE64
    prev_token := FE64
    last_cpu := -16843010
    destroy_count := FE64 }

/-- The destructor `~MallocTracer`: flush, encode the DEATH pair into the (now
empty) buffer, hand it to the sink, poison the object. -/
def destruct (c : Codec) (g : Globals) (t : MallocTracer) : Globals × MallocTracer :=
  let r := RefreshBuffer c g t
  let u := UpdateTSAndCPU c r.1 r.2
  (append_buf_locked u.2.1 (.death u.2.2.thread_id u.1), poisoned u.2.2)

end MallocTracer

/-- The function `finalize_tracing`: set `no_more_writes`, then write the END marker
straight to the sink and finalize it. -/
def finalize_tracing (g : Globals) : Globals :=
  let g1 := { g with no_more_writes := true }
  { g1 with sink := g1.sink ++ [.end_marker], finalized := true }

/-! ## The life of one tracer -/

/-- The part of a dump pass (`DumpEverything`) that concerns one tracer: the
snapshot of `buf_ptr_` taken by the first loop, then the body of the second loop. -/
def MallocTracer.dump_pass (c : Codec) (g : Globals) (t : MallocTracer) :
    Globals × MallocTracer :=
  let t1 := { t with signal_snapshot_buf_ptr := t.buf_ptr }
  if t1.signal_snapshot_buf_ptr = t1.signal_saved_buf_ptr then (g, t1)
  else MallocTracer.DumpFromSaverThread c g t1

/-- The operations that touch one tracer's buffer and cursors. -/
inductive TracerOp where
  /-- The owning thread appends the bytes of one encoded event. -/
  | append (bytes : List Nat)
  /-- The dumper runs a pass over this tracer. -/
  | dump_pass
  /-- The owning thread calls `RefreshBuffer`. -/
  | refresh_buffer
  deriving DecidableEq

/-- One operation on the pair of the globals and the tracer. -/
def TracerOp.step (c : Codec) (st : Globals × MallocTracer) : TracerOp → Globals × MallocTracer
  | .append bytes => (st.1, st.2.AppendBytes bytes)
  | .dump_pass => MallocTracer.dump_pass c st.1 st.2
  | .refresh_buffer => MallocTracer.RefreshBuffer c st.1 st.2

/-- A sequence of operations, first to last. -/
def run_tracer (c : Codec) (ops : List TracerOp) (st : Globals × MallocTracer) :
    Globals × MallocTracer :=
  ops.foldl (TracerOp.step c) st

/-- The operations that move one tracer's cursors, with the producer's whole append:
`AppendWords`, which flushes first when it finds `buf_ptr > buf_end`. -/
inductive CursorOp where
  /-- The owning thread appends the event made of the given words. -/
  | append_words (words : List Nat)
  /-- The dumper runs a pass over this tracer. -/
  | dump_pass
  /-- The owning thread calls `RefreshBuffer`. -/
  | refresh_buffer
  deriving DecidableEq

/-- One cursor operation on the pair of the globals and the tracer. -/
def CursorOp.step (c : Codec) (st : Globals × MallocTracer) : CursorOp → Globals × MallocTracer
  | .append_words words => MallocTracer.AppendWords c st.1 st.2 words
  | .dump_pass => MallocTracer.dump_pass c st.1 st.2
  | .refresh_buffer => MallocTracer.RefreshBuffer c st.1 st.2

/-- A sequence of cursor operations, first to last. -/
def run_cursors (c : Codec) (ops : List CursorOp) (st : Globals × MallocTracer) :
    Globals × MallocTracer :=
  ops.foldl (CursorOp.step c) st

/-- Whether the operation runs `RefreshBuffer` in the given state: a direct call, or an
append that finds `buf_ptr > buf_end`. -/
def CursorOp.flushes (st : Globals × MallocTracer) : CursorOp → Bool
  | .append_words _ => decide (st.2.buf_ptr > st.2.buf_end)
  | .dump_pass => false
  | .refresh_buffer => true

/-- No operation of the run flushes the buffer. -/
def no_flush (c : Codec) : List CursorOp → Globals × MallocTracer → Bool
  | [], _ => true
  | op :: rest, st => !op.flushes st && no_flush c rest (CursorOp.step c st op)

/-- Every append of the run finds room for its bytes in `buf_storage`. -/
def appends_fit (c : Codec) : List TracerOp → Globals × MallocTracer → Bool
  | [], _ => true
  | .append bytes :: rest, st =>
      decide (st.2.buf_ptr + bytes.length ≤ st.2.buf_storage.length) &&
        appends_fit c rest (TracerOp.step c st (.append bytes))
  | op :: rest, st => appends_fit c rest (TracerOp.step c st op)

/-- The bytes the producer appended during the run, in program order. -/
def appended : List TracerOp → List Nat
  | [] => []
  | .append bytes :: rest => bytes ++ appended rest
  | _ :: rest => appended rest

/-- The bytes in the buffer that no chunk has carried to the sink yet,
`[signal_saved_buf_ptr, buf_ptr)`. -/
def MallocTracer.pending (t : MallocTracer) : List Nat :=
  readAt t.buf_storage t.signal_saved_buf_ptr (t.buf_ptr - t.signal_saved_buf_ptr)

/-- The raw bytes of a stretch of the sink, in sink order. -/
def payload : List SinkItem → List Nat
  | [] => []
  | .raw bytes :: rest => bytes ++ payload rest
  | _ :: rest => payload rest

/-- The stretch of the sink consists of BUFFER-CHUNK records of thread `tid`: each a
header carrying `tid` followed by exactly `size` raw bytes. -/
def is_chunk_seq (tid : Nat) : List SinkItem → Bool
  | [] => true
  | .buffer_header id _ size :: .raw bytes :: rest =>
      decide (id = tid) && decide (size = bytes.length) && is_chunk_seq tid rest
  | _ => false

/-- The sum of the `size` fields of the BUFFER-CHUNK headers in a stretch of the sink. -/
def header_sizes : List SinkItem → Nat
  | [] => 0
  | .buffer_header _ _ size :: rest => size + header_sizes rest
  | _ :: rest => header_sizes rest

/-! ## The process: registry, TLS slots, tracer memory -/

/-- A `MallocTracer*`: the static `first_tracer_space`, or a slot of the slab
`malloc_tracer_allocator`. -/
inductive TracerPtr where
  | first
  | slab (slot : Nat)
  deriving DecidableEq

/-- A `Storage*`. Every `Storage` is the thread-local `instance_` of some thread, so
a valid pointer names the thread. `garbage` is the constant `0xcdcdcdcdcdcdcdcd`. -/
inductive StoragePtr where
  | null
  | node (thread : Nat)
  | garbage
  deriving DecidableEq

/-- A `Storage**`: the address of `all_tracers_`, or of the `next` field of some
thread's `instance_`. `garbage` is the constant `0xabababababababab`. -/
inductive StoragePP where
  | null
  | head
  | next_of (thread : Nat)
  | garbage
  deriving DecidableEq

/-- The struct `MallocTracer::Storage`. -/
structure Storage where
  ptr : Option TracerPtr
  next : StoragePtr
  pprev : StoragePP
  deriving DecidableEq

/-- Modelled from the spec: `PageHeapAllocator<MallocTracer>` is declared in
`page_heap_allocator.h`, which is not among the sources. The spec describes a
fixed-object-size slab with `init()`, `new()` and `delete()`; it is kept as the list
of slots that were returned and the index of the first slot never handed out. -/
structure Allocator where
  free_list : List Nat
  fresh : Nat
  deriving DecidableEq

/-- Modelled from the spec: `init()` of the slab, no slot handed out yet. -/
def Allocator.Init : Allocator := { free_list := [], fresh := 0 }

/-- Modelled from the spec: `new()` of the slab, which hands out a returned slot when
there is one and a fresh one otherwise. -/
def Allocator.New (a : Allocator) : Nat × Allocator :=
  match a.free_list with
  | slot :: rest => (slot, { a with free_list := rest })
  | [] => (a.fresh, { a with fresh := a.fresh + 1 })

/-- Modelled from the spec: `delete()` of the slab, which takes the slot back. -/
def Allocator.Delete (a : Allocator) (slot : Nat) : Allocator :=
  { a with free_list := slot :: a.free_list }

/-- The map `f` with the value at `k` replaced by `v`. -/
def upd {α β : Type} [DecidableEq α] (f : α → β) (k : α) (v : β) : α → β :=
  fun x => if x = k then v else f x

/-- The whole state of the tracer runtime. Threads are numbered; the number of a
thread is only a name for its thread-local variables and has nothing to do with
`thread_id_`. -/
structure Process where
  g : Globals
  /-- The list head `MallocTracer::all_tracers_`. -/
  all_tracers : StoragePtr
  /-- The thread-local `MallocTracer::instance_` of each thread. -/
  instance_ : Nat → Storage
  /-- The thread-local `had_tracer` of each thread. -/
  had_tracer : Nat → Bool
  /-- The thread-local `in_setup` of each thread. -/
  in_setup : Nat → Bool
  /-- Whether the thread's value for `instance_key` is set; when it is, the value is
  the address of the thread's `instance_`. -/
  specific : Nat → Bool
  /-- Whether `pthread_once(&setup_once, ...)` has run `DoSetupTLS`. -/
  setup_once : Bool
  /-- Whether `pthread_once(&first_tracer_setup_once, ...)` has run `SetupFirstTracer`. -/
  first_tracer_setup_once : Bool
  /-- The memory behind every `MallocTracer*`. -/
  tracers : TracerPtr → MallocTracer
  /-- The slab `malloc_tracer_allocator`. -/
  allocator : Allocator

/-- Zero-filled memory for one tracer with a buffer of `size` bytes. -/
def zero_tracer (size : Nat) : MallocTracer :=
  { thread_id := 0, buf_storage := List.replicate size 0, buf_ptr := 0, buf_end := 0,
    signal_saved_buf_ptr := 0, signal_snapshot_buf_ptr := 0, token_base := 0, counter := 0,
    prev_size := 0, prev_token := 0, last_cpu := 0, destroy_count := 0 }

/-- The state at program start: every static and thread-local variable is zero, the
sink is empty; `size` is `sizeof(buf_storage_)`, and `clock` and `cpus` are the
readings the run will see. The sink answers `IsFullySetup()` with true from the start,
so that no dump pass is skipped. -/
def Process.init (size : Nat) (clock : List Nat) (cpus : List Int) : Process :=
  { g := { token_counter := 0, thread_id_counter := 0, thread_dump_written := 0, base_ts := 0,
           no_more_writes := false, sink := [], fully_setup := true, finalized := false,
           clock := clock, cpus := cpus }
    all_tracers := .null
    instance_ := fun _ => { ptr := none, next := .null, pprev := .null }
    had_tracer := fun _ => false
    in_setup := fun _ => false
    specific := fun _ => false
    setup_once := false
    first_tracer_setup_once := false
    tracers := fun _ => zero_tracer size
    allocator := Allocator.Init }

/-- The threads met when following `next` from `p`, for at most `fuel` steps. -/
def chain (s : Process) : Nat → StoragePtr → List Nat
  | fuel + 1, .node th => th :: chain s fuel (s.instance_ th).next
  | _, _ => []

/-- The threads whose `Storage` is reachable from `all_tracers_` by following `next`. -/
def reachable (s : Process) (fuel : Nat) : List Nat := chain s fuel s.all_tracers

/-- The function `SetupFirstTracer`. -/
def SetupFirstTracer (c : Codec) (s : Process) : Process :=
  let ts := get_nanos s.g
  let g1 := { ts.2 with base_ts := Nat.land ts.1 c.kTSMask }
  let r := MallocTracer.construct c g1 (s.tracers .first) 0
  { s with g := r.1, tracers := upd s.tracers .first r.2 }

/-- The function `DoSetupTLS`, run by thread `th`: the magic header goes straight to
the sink, the slab is initialised; `in_setup` is true only while it runs. -/
def DoSetupTLS (th : Nat) (s : Process) : Process :=
  { s with
    in_setup := upd s.in_setup th false
    g := { s.g with sink := s.g.sink ++ [.magic] }
    allocator := Allocator.Init }

/-- The store `*pp = v` through a `Storage**`; `none` when `pp` is not a valid
address. -/
def store_through (pp : StoragePP) (v : StoragePtr) (s : Process) : Option Process :=
  match pp with
  | .head => some { s with all_tracers := v }
  | .next_of m => some { s with instance_ := upd s.instance_ m { (s.instance_ m) with next := v } }
  | .null => none
  | .garbage => none

/-- The store `p->pprev = pp` guarded by `if (p)`; `none` when `p` is the garbage
pointer. -/
def set_pprev_if (p : StoragePtr) (pp : StoragePP) (s : Process) : Option Process :=
  match p with
  | .null => some s
  | .node n => some { s with instance_ := upd s.instance_ n { (s.instance_ n) with pprev := pp } }
  | .garbage => none

/-- The call `pthread_once(&first_tracer_setup_once, MallocTracer::SetupFirstTracer)`. -/
def once_SetupFirstTracer (c : Codec) (s : Process) : Process :=
  if s.first_tracer_setup_once then s
  else { SetupFirstTracer c s with first_tracer_setup_once := true }

/-- The call `pthread_once(&setup_once, &MallocTracer::DoSetupTLS)` made by thread `th`. -/
def once_DoSetupTLS (th : Nat) (s : Process) : Process :=
  if s.setup_once then s else { DoSetupTLS th s with setup_once := true }

/-- The statement `uint64_t thread_id = !had_tracer ? ++thread_id_counter : 0;` of
`GetInstanceSlow`, run by thread `th`. -/
def draw_thread_id (th : Nat) (s : Process) : Nat × Process :=
  if !s.had_tracer th then
    ((s.g.thread_id_counter + 1) % U64,
     { s with g := { s.g with thread_id_counter := (s.g.thread_id_counter + 1) % U64 } })
  else (0, s)

/-- The choice of the tracer in `GetInstanceSlow`: the first tracer for thread id 1,
otherwise a slab slot on which `MallocTracer(thread_id)` is constructed. -/
def pick_instance (c : Codec) (thread_id : Nat) (s : Process) : TracerPtr × Process :=
  if thread_id = 1 then (.first, s)
  else
    let n := s.allocator.New
    let r := MallocTracer.construct c s.g (s.tracers (.slab n.1)) thread_id
    (.slab n.1, { s with allocator := n.2, g := r.1, tracers := upd s.tracers (.slab n.1) r.2 })

/-- The linking statements of `GetInstanceSlow` for thread `th` and the tracer `tp`;
`none` when the old head is the garbage pointer. -/
def link_instance (th : Nat) (tp : TracerPtr) (s : Process) : Option Process :=
  let s1 := { s with
    instance_ := upd s.instance_ th { ptr := some tp, next := s.all_tracers, pprev := .head } }
  (set_pprev_if (s1.instance_ th).next (.next_of th) s1).map fun s2 =>
    { s2 with all_tracers := .node th }

/-- The function `GetInstanceSlow`, run by thread `th`. The result is the tracer
handed to the thread and the new state; `none` stands for a crash. -/
def GetInstanceSlow (c : Codec) (th : Nat) (s : Process) : Option (TracerPtr × Process) :=
  let s1 := once_SetupFirstTracer c s
  if s1.in_setup th then some (.first, s1)
  else
    let s2 := once_DoSetupTLS th s1
    let d := draw_thread_id th s2
    let a := pick_instance c d.1 d.2
    (link_instance th a.1 a.2).map fun s3 =>
      (a.1, if !s3.had_tracer th then { s3 with specific := upd s3.specific th true } else s3)

/-- Modelled from the spec: `GetInstance` is defined in the missing header
`malloc_tracer.h`; the spec calls it the fast path, a TLS read, so it returns
`instance_.ptr` when that is set and calls `GetInstanceSlow` otherwise. -/
def GetInstance (c : Codec) (th : Nat) (s : Process) : Option (TracerPtr × Process) :=
  match (s.instance_ th).ptr with
  | some tp => some (tp, s)
  | none => GetInstanceSlow c th s

/-- The unlinking block of `MallocTracerDestructor` (the `if (instanceptr->pprev)`
statement). -/
def destructor_unlink (th : Nat) (s : Process) : Option Process :=
  match (s.instance_ th).pprev with
  | .null => some s
  | pp =>
    (store_through pp (s.instance_ th).next s).bind fun s1 =>
      (set_pprev_if (s.instance_ th).next pp s1).map fun s2 =>
        { s2 with
          instance_ := upd s2.instance_ th
            { (s2.instance_ th) with pprev := .garbage, next := .garbage } }

/-- The function `MallocTracerDestructor`, called for thread `th` with the address of
its `instance_`; `none` stands for a failed `CHECK_CONDITION` or a crash. -/
def MallocTracerDestructor (c : Codec) (th : Nat) (s : Process) : Option Process :=
  if s.had_tracer th then none
  else
    match (s.instance_ th).ptr with
    | none => none
    | some tp =>
      let t := s.tracers tp
      let s1 := { s with tracers := upd s.tracers tp { t with destroy_count := t.destroy_count + 1 } }
      if t.destroy_count < 3 then some { s1 with specific := upd s1.specific th true }
      else
        (destructor_unlink th s1).map fun s2 =>
          let s3 := { s2 with
            had_tracer := upd s2.had_tracer th true
            instance_ := upd s2.instance_ th { (s2.instance_ th) with ptr := none } }
          let r := MallocTracer.destruct c s3.g (s3.tracers tp)
          let s4 := { s3 with g := r.1, tracers := upd s3.tracers tp r.2 }
          match tp with
          | .first => s4
          | .slab slot => { s4 with allocator := s4.allocator.Delete slot }

/-- The function `ExcludeCurrentThreadFromDumping`, run by thread `th`. -/
def ExcludeCurrentThreadFromDumping (c : Codec) (th : Nat) (s : Process) : Option Process :=
  (GetInstance c th s).bind fun r =>
    let s1 := r.2
    match (s1.instance_ th).pprev with
    | .null => some s1
    | pp =>
      (store_through pp (s1.instance_ th).next s1).map fun s2 =>
        { s2 with instance_ := upd s2.instance_ th { (s2.instance_ th) with pprev := .null } }

/-- The tracers met by the loops of `DumpEverything`, which follow `next` from `p`
and read `s->ptr`; `none` when the walk dereferences a null `ptr` or the garbage
pointer, or does not end within `fuel` steps. -/
def walk (s : Process) : Nat → StoragePtr → Option (List TracerPtr)
  | _, .null => some []
  | _, .garbage => none
  | 0, .node _ => none
  | fuel + 1, .node th =>
    match (s.instance_ th).ptr with
    | none => none
    | some tp => (walk s fuel (s.instance_ th).next).map (tp :: ·)

/-- The first loop of `DumpEverything` over the tracers `l`. -/
def snapshot_all (l : List TracerPtr) (tr : TracerPtr → MallocTracer) :
    TracerPtr → MallocTracer :=
  l.foldl (fun tr tp => upd tr tp { (tr tp) with signal_snapshot_buf_ptr := (tr tp).buf_ptr }) tr

/-- The body of the second loop of `DumpEverything` for the tracer at `tp`. -/
def dump_one (c : Codec) (st : Globals × (TracerPtr → MallocTracer)) (tp : TracerPtr) :
    Globals × (TracerPtr → MallocTracer) :=
  if (st.2 tp).signal_snapshot_buf_ptr = (st.2 tp).signal_saved_buf_ptr then st
  else
    let r := MallocTracer.DumpFromSaverThread c st.1 (st.2 tp)
    (r.1, upd st.2 tp r.2)

/-- The second loop of `DumpEverything` over the tracers `l`. -/
def dump_all (c : Codec) (l : List TracerPtr) (st : Globals × (TracerPtr → MallocTracer)) :
    Globals × (TracerPtr → MallocTracer) :=
  l.foldl (dump_one c) st

/-- The function `DumpEverything`. Neither loop changes a `next` or a `ptr` field, so
both walk the same tracers; a walk that fails does so in the first loop, before
anything is written. `fuel` bounds the length of the walk. -/
def DumpEverything (c : Codec) (fuel : Nat) (s : Process) : Option Process :=
  if !s.g.fully_setup then some s
  else
    (walk s fuel s.all_tracers).map fun l =>
      let r := dump_all c l (s.g, snapshot_all l s.tracers)
      let ts := get_nanos r.1
      let cpu := sched_getcpu ts.2
      { s with g := append_buf_locked cpu.2 (.sync_barrier (c.bundle_ts_and_cpu ts.1 cpu.1)),
               tracers := r.2 }

/-! ## Runs of the whole process -/

/-- The operations of the runtime. A tracer operation names the tracer memory it
runs on; a thread operation names the thread that runs it. -/
inductive Op where
  | GetInstanceSlow (th : Nat)
  | MallocTracerDestructor (th : Nat)
  | ExcludeCurrentThreadFromDumping (th : Nat)
  | DumpEverything (fuel : Nat)
  | AppendWords (tp : TracerPtr) (words : List Nat)
  | RefreshBuffer (tp : TracerPtr)
  | RefreshTokenAndDec (tp : TracerPtr)
  | finalize_tracing
  deriving DecidableEq

/-- Run a tracer method on the tracer stored at `tp`. -/
def on_tracer (f : Globals → MallocTracer → Globals × MallocTracer) (tp : TracerPtr)
    (s : Process) : Process :=
  { s with g := (f s.g (s.tracers tp)).1, tracers := upd s.tracers tp (f s.g (s.tracers tp)).2 }

/-- One operation; `none` stands for a crash. -/
def Op.step (c : Codec) (s : Process) : Op → Option Process
  | .GetInstanceSlow th => (tcmalloc.GetInstanceSlow c th s).map (·.2)
  | .MallocTracerDestructor th => tcmalloc.MallocTracerDestructor c th s
  | .ExcludeCurrentThreadFromDumping th => tcmalloc.ExcludeCurrentThreadFromDumping c th s
  | .DumpEverything fuel => tcmalloc.DumpEverything c fuel s
  | .AppendWords tp words => some (on_tracer (MallocTracer.AppendWords c · · words) tp s)
  | .RefreshBuffer tp => some (on_tracer (MallocTracer.RefreshBuffer c) tp s)
  | .RefreshTokenAndDec tp => some (on_tracer (MallocTracer.RefreshTokenAndDec c) tp s)
  | .finalize_tracing => some { s with g := tcmalloc.finalize_tracing s.g }

/-- The operations that go through `GetInstanceSlow`, and so may run the one-time
`DoSetupTLS`, which writes the magic header straight to the sink. -/
def Op.may_setup_tls : Op → Bool
  | .GetInstanceSlow _ => true
  | .ExcludeCurrentThreadFromDumping _ => true
  | _ => false

/-- A sequence of operations, first to last. -/
def run (c : Codec) : List Op → Process → Option Process
  | [], s => some s
  | op :: rest, s => (Op.step c s op).bind (run c rest)

/-- A small codec for the examples: one byte per varint, the token pair is the base
and the time stamp, the bundle is the time stamp. -/
def sample_codec : Codec :=
  { kMaxSize := 10
    kTSMask := U64 - 1
    encode_unsigned := fun n => [n % 256]
    encode_token := fun base ts => (base, ts)
    bundle_ts_and_cpu := fun ts _ => ts }

/-! ## Vocabulary of the statements -/

/-- What was appended to the sink between the globals `g` and the later globals `g'`. -/
def sink_added (g g' : Globals) : List SinkItem := g'.sink.drop g.sink.length

/-- The thread id a sink item carries, if it carries one. -/
def SinkItem.thread_id? : SinkItem → Option Nat
  | .buffer_header id _ _ => some id
  | .death id _ => some id
  | _ => none

/-- The effect on the globals of a tracer method other than the dumper's, run by the
tracer with `thread_id_ = tid`: `no_more_writes`, `thread_dump_written` and
`thread_id_counter` stay, what is added to the sink carries no other thread id than
`tid`, and nothing is added once `no_more_writes` is set. -/
structure Quiet (tid : Nat) (g g' : Globals) : Prop where
  no_more_writes : g'.no_more_writes = g.no_more_writes
  thread_dump_written : g'.thread_dump_written = g.thread_dump_written
  thread_id_counter : g'.thread_id_counter = g.thread_id_counter
  sink : ∃ d, g'.sink = g.sink ++ d ∧ (g.no_more_writes = true → d = []) ∧
    ∀ x ∈ d, ∀ id, x.thread_id? = some id → id = tid

/-- The effect on the globals of the dumper: `no_more_writes` stays, the thread ids
added to the sink satisfy `P`, nothing is added once `no_more_writes` is set, and
while it is not set `thread_dump_written` grows by the `size` fields of the chunk
headers added, modulo `2 ^ 64`. -/
structure Dumped (P : Nat → Prop) (g g' : Globals) : Prop where
  no_more_writes : g'.no_more_writes = g.no_more_writes
  bounded : g.thread_dump_written < U64 → g'.thread_dump_written < U64
  sink : ∃ d, g'.sink = g.sink ++ d ∧ (g.no_more_writes = true → d = []) ∧
    (∀ x ∈ d, ∀ id, x.thread_id? = some id → P id) ∧
    (g.no_more_writes = false →
      g'.thread_dump_written % U64 = (g.thread_dump_written + header_sizes d) % U64)

/-- No tracer memory holds `thread_id_ = 1`, and the first tracer holds `0`, or the
poison pattern once it has been destroyed. -/
def ids_ok (s : Process) : Prop :=
  (∀ tp, (s.tracers tp).thread_id ≠ 1) ∧
    ((s.tracers .first).thread_id = 0 ∨ (s.tracers .first).thread_id = FE64)

/-- What every operation of the process other than a dump pass and `finalize_tracing`
guarantees between the state before and the state after: the two globals stay,
`setup_once` stays once set, the thread ids stay in order and the sink only grows, and
under `no_more_writes` the sink stays unless the step ran the one-time TLS setup. -/
structure PStep (s s' : Process) : Prop where
  no_more_writes : s'.g.no_more_writes = s.g.no_more_writes
  thread_dump_written : s'.g.thread_dump_written = s.g.thread_dump_written
  setup_once : s.setup_once = true → s'.setup_once = true
  keeps_ids : ids_ok s → ids_ok s'
  sink : ids_ok s → ∃ d, s'.g.sink = s.g.sink ++ d ∧
    ∀ x ∈ d, ∀ id, x.thread_id? = some id → id ≠ 1
  frozen : s.g.no_more_writes = true → s'.setup_once = s.setup_once → s'.g.sink = s.g.sink

/-- What the dump passes of a run added to the sink: for each `DumpEverything` of the
run, the items by which it extended the sink. -/
def dumper_items (c : Codec) : List Op → Process → List SinkItem
  | [], _ => []
  | op :: rest, s =>
    match Op.step c s op with
    | none => []
    | some s' =>
      (match op with
        | .DumpEverything _ => s'.g.sink.drop s.g.sink.length
        | _ => []) ++ dumper_items c rest s'

/-- The tracer's destructor called `n` times in a row for thread `th`. -/
def destructor_calls (c : Codec) (th : Nat) : Nat → Process → Option Process
  | 0, s => some s
  | n + 1, s => (destructor_calls c th n s).bind (MallocTracerDestructor c th)

/-- The bytes of the TOKEN-REFRESH event with the given base as `AppendWords` stores
them: the varints of the pair `encode_token(base, ts_and_cpu)`. -/
def token_refresh_bytes (c : Codec) (base ts_and_cpu : Nat) : List Nat :=
  c.encode_unsigned (c.encode_token base ts_and_cpu).1 ++
    c.encode_unsigned (c.encode_token base ts_and_cpu).2

/-- The last `n` bytes before `buf_ptr`. -/
def MallocTracer.last_appended (t : MallocTracer) (n : Nat) : List Nat :=
  readAt t.buf_storage (t.buf_ptr - n) n

/-- The event most recently appended to the buffer of `t` is a TOKEN-REFRESH carrying
`base`. -/
def MallocTracer.emitted_token_refresh (c : Codec) (t : MallocTracer) (base : Nat) : Prop :=
  ∃ ts, t.last_appended (token_refresh_bytes c base ts).length = token_refresh_bytes c base ts

/-- The token refreshes of a process, in the order in which they take the atomic
add. Each is performed by some tracer, with the rest of the globals as they are at
that moment; `token_counter` is written by nothing else, so it is what one refresh
hands to the next. -/
def refresh_run (c : Codec) : Nat → List (Globals × MallocTracer) → List (Globals × MallocTracer)
  | _, [] => []
  | counter, (g, t) :: rest =>
    let r := MallocTracer.RefreshTokenAndDec c { g with token_counter := counter } t
    r :: refresh_run c r.1.token_counter rest

/-- The block of tokens a tracer holds after a refresh: `token_base_` is the end of
the block, which has `kTokenSize` tokens. -/
def MallocTracer.token_block (t : MallocTracer) : Finset Nat :=
  Finset.Ico (t.token_base - kTokenSize) t.token_base

/-- The state after the destructor has run `k` times without tearing down: only
`destroy_count_` and the thread's value for the TLS key differ from `s`. -/
def after_early_calls (s : Process) (th : Nat) (tp : TracerPtr) (k : Nat) : Process :=
  { s with
    tracers := upd s.tracers tp { (s.tracers tp) with destroy_count := k }
    specific := upd s.specific th true }

/-! ## Sample data for the examples -/

/-- The state at program start with 64-byte buffers, where every clock and CPU
reading is 0. -/
def sample_process : Process := Process.init 64 [] []

/-- The globals at program start. -/
def sample_globals : Globals := sample_process.g

/-- A tracer constructed at program start on zero-filled memory, with thread id 2. -/
def sample_tracer : MallocTracer :=
  (MallocTracer.construct sample_codec sample_globals (zero_tracer 64) 2).2

/-- Thread 0 gets its tracer and exits: four destructor calls. -/
def sample_life : List Op :=
  [.GetInstanceSlow 0, .MallocTracerDestructor 0, .MallocTracerDestructor 0,
   .MallocTracerDestructor 0, .MallocTracerDestructor 0]

/-- Thread 0 gets its tracer and appends an event. -/
def sample_live : List Op :=
  [.GetInstanceSlow 0, .AppendWords .first [7, 8]]

/-- Threads 0 and 1 get their tracers, thread 1 excludes itself from dumping, then
thread 0 exits: four destructor calls. -/
def sample_exclusion : List Op :=
  [.GetInstanceSlow 0, .GetInstanceSlow 1, .ExcludeCurrentThreadFromDumping 1,
   .MallocTracerDestructor 0, .MallocTracerDestructor 0, .MallocTracerDestructor 0,
   .MallocTracerDestructor 0]

/-- Cursor operations of one tracer: an append, a dump pass, another append, a flush,
and an append after it. -/
def sample_cursor_ops : List CursorOp :=
  [.append_words [1, 2, 3], .dump_pass, .append_words [4, 5], .refresh_buffer,
   .append_words [6]]

/-- A run of one tracer: an append, a dump pass, another append, a flush. -/
def sample_ops : List TracerOp :=
  [.append [1, 2, 3], .dump_pass, .append [4, 5], .refresh_buffer]

/-- Two token refreshes, by two different tracers. -/
def sample_calls : List (Globals × MallocTracer) :=
  [(sample_globals, zero_tracer 64), (sample_globals, sample_tracer)]

/-- Thread 0 gets its tracer, appends an event, and the process finalizes. -/
def sample_finalized : List Op :=
  [.GetInstanceSlow 0, .AppendWords .first [7, 8], .finalize_tracing]

/-- Operations that would write to the sink: a flush, a dump pass, an append, a token
refresh, a new thread, and the four destructor calls of thread 0. -/
def sample_late_ops : List Op :=
  [.AppendWords .first [9], .DumpEverything 4, .RefreshBuffer .first, .RefreshTokenAndDec .first,
   .GetInstanceSlow 1, .DumpEverything 4, .MallocTracerDestructor 0, .MallocTracerDestructor 0,
   .MallocTracerDestructor 0, .MallocTracerDestructor 0]

/-- Two threads trace, flush and get dumped while the process runs. -/
def sample_busy : List Op :=
  [.GetInstanceSlow 0, .GetInstanceSlow 1, .DumpEverything 4, .AppendWords .first [1, 2, 3],
   .AppendWords (.slab 0) [4], .RefreshBuffer (.slab 0), .DumpEverything 4,
   .AppendWords (.slab 0) [5, 6], .DumpEverything 4]

/-! ## Lemmas on buffers and sink stretches -/

set_option maxRecDepth 8192

theorem readAt_writeAt_extend (buf bs : List Nat) (a p : Nat) (hap : a ≤ p)
    (hp : p ≤ buf.length) :
    readAt (writeAt buf p bs) a (p + bs.length - a) = readAt buf a (p - a) ++ bs := by
  unfold readAt writeAt
  have h1 : (List.take p buf).length = p := by simp [hp]
  have h2 : ((List.take p buf).drop a).length = p - a := by simp [h1]
  rw [List.append_assoc, List.drop_append_of_le_length (by omega)]
  have h3 : p + bs.length - a = ((List.take p buf).drop a).length + bs.length := by omega
  rw [h3, ← List.append_assoc, List.take_append_of_le_length (by simp), List.take_of_length_le (by simp)]
  congr 1
  rw [List.drop_take]

theorem payload_append (a b : List SinkItem) : payload (a ++ b) = payload a ++ payload b := by
  induction a with
  | nil => rfl
  | cons x xs ih => cases x <;> simp [payload, ih]

theorem is_chunk_seq_append (tid : Nat) (a b : List SinkItem)
    (ha : is_chunk_seq tid a = true) (hb : is_chunk_seq tid b = true) :
    is_chunk_seq tid (a ++ b) = true := by
  induction a using is_chunk_seq.induct tid with
  | case1 => simpa using hb
  | case2 id ts size bytes rest ih =>
    simp only [is_chunk_seq, Bool.and_eq_true] at ha
    simp only [List.cons_append, is_chunk_seq, Bool.and_eq_true]
    exact ⟨ha.1, ih ha.2⟩
  | case3 l h1 h2 => 
    simp [is_chunk_seq] at ha
    

theorem length_writeAt (buf bs : List Nat) (p : Nat) (h : p + bs.length ≤ buf.length) :
    (writeAt buf p bs).length = buf.length := by
  unfold writeAt
  simp
  omega

theorem length_readAt (buf : List Nat) (a n : Nat) (h : a + n ≤ buf.length) :
    (readAt buf a n).length = n := by
  unfold readAt
  simp
  omega

theorem ptr_diff_of_le {a b : Nat} (h : b ≤ a) : ptr_diff a b = a - b := by
  simp [ptr_diff, h]

theorem inner_sink (g : Globals) (t : MallocTracer) (size ts : Nat)
    (hw : g.no_more_writes = false) :
    MallocTracer.RefreshBufferInnerLocked g t size ts =
      { g with sink := g.sink ++ [.buffer_header t.thread_id ts size,
          .raw (readAt t.buf_storage t.signal_saved_buf_ptr size)] } := by
  simp [MallocTracer.RefreshBufferInnerLocked, append_buf_locked, hw]

/-- What one operation does to the sink and to the bytes still pending in the buffer. -/
theorem step_ordering (c : Codec) (g : Globals) (t : MallocTracer) (op : TracerOp)
    (hw : g.no_more_writes = false)
    (h1 : t.signal_saved_buf_ptr ≤ t.buf_ptr) (h2 : t.buf_ptr ≤ t.buf_storage.length)
    (hfit : appends_fit c [op] (g, t) = true) :
    ∃ d, (TracerOp.step c (g, t) op).1.sink = g.sink ++ d ∧
      is_chunk_seq t.thread_id d = true ∧
      payload d ++ (TracerOp.step c (g, t) op).2.pending = t.pending ++ appended [op] ∧
      (TracerOp.step c (g, t) op).1.no_more_writes = false ∧
      (TracerOp.step c (g, t) op).2.signal_saved_buf_ptr ≤
        (TracerOp.step c (g, t) op).2.buf_ptr ∧
      (TracerOp.step c (g, t) op).2.buf_ptr ≤
        (TracerOp.step c (g, t) op).2.buf_storage.length ∧
      (TracerOp.step c (g, t) op).2.thread_id = t.thread_id ∧
      (op = .refresh_buffer → (TracerOp.step c (g, t) op).2.pending = []) := by
  cases op with
  | append bytes =>
    simp only [appends_fit, Bool.and_true, decide_eq_true_eq] at hfit
    refine ⟨[], by simp [TracerOp.step], rfl, ?_, hw, ?_, ?_, rfl, by simp⟩
    · simp only [payload, List.nil_append, TracerOp.step, MallocTracer.pending,
        MallocTracer.AppendBytes, appended, List.append_nil]
      exact readAt_writeAt_extend _ _ _ _ h1 h2
    · simp only [TracerOp.step, MallocTracer.AppendBytes]; omega
    · simp only [TracerOp.step, MallocTracer.AppendBytes]
      rw [length_writeAt _ _ _ hfit]; exact hfit
  | dump_pass =>
    by_cases he : t.buf_ptr = t.signal_saved_buf_ptr
    · refine ⟨[], ?_, rfl, ?_, ?_, ?_, ?_, ?_, by simp⟩ <;>
        simp [TracerOp.step, MallocTracer.dump_pass, he, hw, payload, appended,
          MallocTracer.pending] <;> omega
    · have hd := ptr_diff_of_le h1
      have hs : t.buf_ptr - t.signal_saved_buf_ptr ≠ 0 := by omega
      have hlen : (readAt t.buf_storage t.signal_saved_buf_ptr
          (t.buf_ptr - t.signal_saved_buf_ptr)).length
          = t.buf_ptr - t.signal_saved_buf_ptr := length_readAt _ _ _ (by omega)
      refine ⟨[.buffer_header t.thread_id
          (c.bundle_ts_and_cpu (get_nanos g).1 t.last_cpu)
          (t.buf_ptr - t.signal_saved_buf_ptr),
          .raw (readAt t.buf_storage t.signal_saved_buf_ptr
            (t.buf_ptr - t.signal_saved_buf_ptr))], ?_, ?_, ?_, ?_, ?_, ?_, ?_, by simp⟩
      · simp [TracerOp.step, MallocTracer.dump_pass, he, MallocTracer.DumpFromSaverThread, hd, hs,
          inner_sink, get_nanos, hw]
      · simp [is_chunk_seq, hlen]
      · simp [TracerOp.step, MallocTracer.dump_pass, he, MallocTracer.DumpFromSaverThread, hd, hs,
          payload, appended, MallocTracer.pending, readAt]
      · simp [TracerOp.step, MallocTracer.dump_pass, he, MallocTracer.DumpFromSaverThread, hd, hs,
          inner_sink, get_nanos, hw]
      · simp [TracerOp.step, MallocTracer.dump_pass, he, MallocTracer.DumpFromSaverThread, hd, hs]
      · simpa [TracerOp.step, MallocTracer.dump_pass, he, MallocTracer.DumpFromSaverThread, hd, hs]
          using h2
      · simp [TracerOp.step, MallocTracer.dump_pass, he, MallocTracer.DumpFromSaverThread, hd, hs]
  | refresh_buffer =>
    by_cases he : t.buf_ptr = t.signal_saved_buf_ptr
    · refine ⟨[], ?_, rfl, ?_, ?_, ?_, ?_, ?_, ?_⟩ <;>
        simp [TracerOp.step, MallocTracer.RefreshBuffer, he, hw, payload, appended,
          MallocTracer.pending, readAt]
    · have hd := ptr_diff_of_le h1
      have hlen : (readAt t.buf_storage t.signal_saved_buf_ptr
          (t.buf_ptr - t.signal_saved_buf_ptr)).length
          = t.buf_ptr - t.signal_saved_buf_ptr := length_readAt _ _ _ (by omega)
      refine ⟨[.buffer_header t.thread_id (MallocTracer.UpdateTSAndCPU c g t).1
          (t.buf_ptr - t.signal_saved_buf_ptr),
          .raw (readAt t.buf_storage t.signal_saved_buf_ptr
            (t.buf_ptr - t.signal_saved_buf_ptr))], ?_, ?_, ?_, ?_, ?_, ?_, ?_, ?_⟩
      · simp [TracerOp.step, MallocTracer.RefreshBuffer, he, inner_sink,
          MallocTracer.UpdateTSAndCPU, get_nanos, sched_getcpu, hw, hd]
      · simp [is_chunk_seq, hlen]
      · simp [TracerOp.step, MallocTracer.RefreshBuffer, he,
          payload, appended, MallocTracer.pending, readAt]
      · simp [TracerOp.step, MallocTracer.RefreshBuffer, he, inner_sink,
          MallocTracer.UpdateTSAndCPU, get_nanos, sched_getcpu, hw]
      · simp [TracerOp.step, MallocTracer.RefreshBuffer, he]
      · simp [TracerOp.step, MallocTracer.RefreshBuffer, he]
      · simp [TracerOp.step, MallocTracer.RefreshBuffer, he, MallocTracer.UpdateTSAndCPU]
      · simp [TracerOp.step, MallocTracer.RefreshBuffer, he, MallocTracer.pending, readAt]

theorem appends_fit_cons (c : Codec) (op : TracerOp) (rest : List TracerOp)
    (st : Globals × MallocTracer) :
    appends_fit c (op :: rest) st =
      (appends_fit c [op] st && appends_fit c rest (TracerOp.step c st op)) := by
  cases op <;> simp [appends_fit]

theorem appended_cons (op : TracerOp) (rest : List TracerOp) :
    appended (op :: rest) = appended [op] ++ appended rest := by
  cases op <;> simp [appended]

/-- The invariant behind the ordering property, over a whole run. -/
theorem run_ordering (c : Codec) (ops : List TracerOp) :
    ∀ (g : Globals) (t : MallocTracer), g.no_more_writes = false →
      t.signal_saved_buf_ptr ≤ t.buf_ptr → t.buf_ptr ≤ t.buf_storage.length →
      appends_fit c ops (g, t) = true →
      ∃ d, (run_tracer c ops (g, t)).1.sink = g.sink ++ d ∧
        is_chunk_seq t.thread_id d = true ∧
        payload d ++ (run_tracer c ops (g, t)).2.pending = t.pending ++ appended ops ∧
        (ops.getLast? = some .refresh_buffer → (run_tracer c ops (g, t)).2.pending = []) := by
  induction ops with
  | nil =>
    intro g t _ _ _ _
    exact ⟨[], by simp [run_tracer], rfl, by simp [run_tracer, payload, appended], by simp⟩
  | cons op rest ih =>
    intro g t hw h1 h2 hfit
    rw [appends_fit_cons, Bool.and_eq_true] at hfit
    obtain ⟨d1, hs1, hc1, hp1, hw1, hb1, hl1, hid1, hr1⟩ :=
      step_ordering c g t op hw h1 h2 hfit.1
    obtain ⟨d2, hs2, hc2, hp2, hr2⟩ :=
      ih (TracerOp.step c (g, t) op).1 (TracerOp.step c (g, t) op).2 hw1 hb1 hl1 hfit.2
    have hrun : run_tracer c (op :: rest) (g, t) =
        run_tracer c rest ((TracerOp.step c (g, t) op).1, (TracerOp.step c (g, t) op).2) := rfl
    rw [hrun]
    refine ⟨d1 ++ d2, ?_, ?_, ?_, ?_⟩
    · rw [hs2, hs1, List.append_assoc]
    · rw [hid1] at hc2
      exact is_chunk_seq_append _ _ _ hc1 hc2
    · rw [payload_append, List.append_assoc, hp2, ← List.append_assoc, hp1,
        List.append_assoc, ← appended_cons]
    · intro hlast
      cases rest with
      | nil =>
        simp only [List.getLast?_singleton, Option.some.injEq] at hlast
        simpa [run_tracer] using hr1 hlast
      | cons o r =>
        rw [List.getLast?_cons_cons] at hlast
        exact hr2 hlast

/-- C1. For one tracer, while `no_more_writes` is false, after any run of producer
appends that fit in the buffer, dump passes and `RefreshBuffer` calls, what the run
added to the sink is a sequence of BUFFER-CHUNK records of this tracer whose raw
payloads, concatenated in sink order, are a prefix of the producer's bytes in program
order (those pending at the start, then those appended during the run); the bytes
missing from the sink are exactly those still pending in the buffer, and right after
a `RefreshBuffer` the payloads are all of the producer's bytes. -/
theorem per_thread_ordering (c : Codec) (g : Globals) (t : MallocTracer)
    (ops : List TracerOp) (hw : g.no_more_writes = false)
    (h1 : t.signal_saved_buf_ptr ≤ t.buf_ptr) (h2 : t.buf_ptr ≤ t.buf_storage.length)
    (hfit : appends_fit c ops (g, t) = true) :
    ∃ d, (run_tracer c ops (g, t)).1.sink = g.sink ++ d ∧
      is_chunk_seq t.thread_id d = true ∧
      payload d <+: t.pending ++ appended ops ∧
      payload d ++ (run_tracer c ops (g, t)).2.pending = t.pending ++ appended ops ∧
      (ops.getLast? = some .refresh_buffer → payload d = t.pending ++ appended ops) := by
  obtain ⟨d, hs, hc, hp, hr⟩ := run_ordering c ops g t hw h1 h2 hfit
  refine ⟨d, hs, hc, ⟨_, hp⟩, hp, ?_⟩
  intro hlast
  rw [hr hlast, List.append_nil] at hp
  exact hp

/-! ## Effects of the tracer methods on the globals -/

theorem Quiet.qrefl (tid : Nat) (g : Globals) : Quiet tid g g :=
  ⟨rfl, rfl, rfl, [], by simp, by simp, by simp⟩

theorem Quiet.qtrans {tid : Nat} {g1 g2 g3 : Globals} (h12 : Quiet tid g1 g2)
    (h23 : Quiet tid g2 g3) : Quiet tid g1 g3 := by
  obtain ⟨d1, hs1, hn1, hw1⟩ := h12.sink
  obtain ⟨d2, hs2, hn2, hw2⟩ := h23.sink
  refine ⟨h23.no_more_writes.trans h12.no_more_writes,
    h23.thread_dump_written.trans h12.thread_dump_written,
    h23.thread_id_counter.trans h12.thread_id_counter, d1 ++ d2, ?_, ?_, ?_⟩
  · rw [hs2, hs1, List.append_assoc]
  · intro h
    rw [hn1 h, hn2 (h12.no_more_writes.trans h)]
    rfl
  · intro x hx
    rcases List.mem_append.1 hx with h | h
    · exact hw1 x h
    · exact hw2 x h

theorem quiet_get_nanos (tid : Nat) (g : Globals) : Quiet tid g (get_nanos g).2 :=
  ⟨rfl, rfl, rfl, [], by simp [get_nanos], by simp, by simp⟩

theorem quiet_sched_getcpu (tid : Nat) (g : Globals) : Quiet tid g (sched_getcpu g).2 :=
  ⟨rfl, rfl, rfl, [], by simp [sched_getcpu], by simp, by simp⟩

theorem quiet_append_buf_locked (tid : Nat) (g : Globals) (x : SinkItem)
    (hx : ∀ id, x.thread_id? = some id → id = tid) : Quiet tid g (append_buf_locked g x) := by
  unfold append_buf_locked
  split
  · exact Quiet.qrefl tid g
  · rename_i h
    exact ⟨rfl, rfl, rfl, [x], rfl, by simp [h], by simpa using hx⟩

theorem quiet_UpdateTSAndCPU (tid : Nat) (c : Codec) (g : Globals) (t : MallocTracer) :
    Quiet tid g (MallocTracer.UpdateTSAndCPU c g t).2.1 :=
  (quiet_get_nanos tid g).qtrans (quiet_sched_getcpu tid _)

theorem quiet_RefreshBufferInnerLocked (g : Globals) (t : MallocTracer) (size ts : Nat) :
    Quiet t.thread_id g (MallocTracer.RefreshBufferInnerLocked g t size ts) :=
  (quiet_append_buf_locked _ g _ (by simp [SinkItem.thread_id?])).qtrans
    (quiet_append_buf_locked _ _ _ (by simp [SinkItem.thread_id?]))

theorem UpdateTSAndCPU_thread_id (c : Codec) (g : Globals) (t : MallocTracer) :
    (MallocTracer.UpdateTSAndCPU c g t).2.2.thread_id = t.thread_id := rfl

theorem RefreshBuffer_thread_id (c : Codec) (g : Globals) (t : MallocTracer) :
    (MallocTracer.RefreshBuffer c g t).2.thread_id = t.thread_id := by
  unfold MallocTracer.RefreshBuffer
  split <;> rfl

theorem quiet_RefreshBuffer (c : Codec) (g : Globals) (t : MallocTracer) :
    Quiet t.thread_id g (MallocTracer.RefreshBuffer c g t).1 := by
  unfold MallocTracer.RefreshBuffer
  split
  · exact (quiet_UpdateTSAndCPU _ c g t).qtrans (quiet_RefreshBufferInnerLocked _ _ _ _)
  · exact Quiet.qrefl _ g

theorem AppendWords_thread_id (c : Codec) (g : Globals) (t : MallocTracer) (w : List Nat) :
    (MallocTracer.AppendWords c g t w).2.thread_id = t.thread_id := by
  unfold MallocTracer.AppendWords
  split
  · exact RefreshBuffer_thread_id c g t
  · rfl

theorem quiet_AppendWords (c : Codec) (g : Globals) (t : MallocTracer) (w : List Nat) :
    Quiet t.thread_id g (MallocTracer.AppendWords c g t w).1 := by
  unfold MallocTracer.AppendWords
  split
  · exact quiet_RefreshBuffer c g t
  · exact Quiet.qrefl _ g

theorem RefreshTokenAndDec_thread_id (c : Codec) (g : Globals) (t : MallocTracer) :
    (MallocTracer.RefreshTokenAndDec c g t).2.thread_id = t.thread_id := by
  simp only [MallocTracer.RefreshTokenAndDec, AppendWords_thread_id, UpdateTSAndCPU_thread_id]

theorem quiet_AppendWords_of (c : Codec) (g : Globals) (t : MallocTracer) (w : List Nat)
    (tid : Nat) (h : t.thread_id = tid) : Quiet tid g (MallocTracer.AppendWords c g t w).1 :=
  h ▸ quiet_AppendWords c g t w

theorem quiet_RefreshTokenAndDec (c : Codec) (g : Globals) (t : MallocTracer) :
    Quiet t.thread_id g (MallocTracer.RefreshTokenAndDec c g t).1 := by
  have h0 : Quiet t.thread_id g
      { g with token_counter := (g.token_counter + kTokenSize) % U64 } :=
    ⟨rfl, rfl, rfl, [], by simp, by simp, by simp⟩
  simp only [MallocTracer.RefreshTokenAndDec]
  generalize (g.token_counter + kTokenSize) % U64 = base at h0 ⊢
  have h1 := quiet_UpdateTSAndCPU t.thread_id c { g with token_counter := base }
    { t with token_base := base, counter := kTokenSize }
  have h2 := fun w => quiet_AppendWords_of c
    (MallocTracer.UpdateTSAndCPU c { g with token_counter := base }
      { t with token_base := base, counter := kTokenSize }).2.1
    (MallocTracer.UpdateTSAndCPU c { g with token_counter := base }
      { t with token_base := base, counter := kTokenSize }).2.2 w t.thread_id
    (UpdateTSAndCPU_thread_id _ _ _)
  exact (h0.qtrans h1).qtrans (h2 _)

theorem RefreshToken_thread_id (c : Codec) (g : Globals) (t : MallocTracer) :
    (MallocTracer.RefreshToken c g t).2.thread_id = t.thread_id :=
  RefreshTokenAndDec_thread_id c g t

theorem quiet_RefreshToken (c : Codec) (g : Globals) (t : MallocTracer) :
    Quiet t.thread_id g (MallocTracer.RefreshToken c g t).1 :=
  quiet_RefreshTokenAndDec c g t

theorem construct_thread_id (c : Codec) (g : Globals) (mem : MallocTracer) (id : Nat) :
    (MallocTracer.construct c g mem id).2.thread_id = id :=
  RefreshToken_thread_id c g _

theorem quiet_construct (c : Codec) (g : Globals) (mem : MallocTracer) (id : Nat) :
    Quiet id g (MallocTracer.construct c g mem id).1 := by
  have h := quiet_RefreshToken c g
    { mem with
      buf_ptr := 0
      buf_end := mem.buf_storage.length - c.kMaxSize
      thread_id := id
      token_base := 0
      counter := 0
      prev_size := 0
      prev_token := 0
      last_cpu := -1
      signal_snapshot_buf_ptr := 0
      signal_saved_buf_ptr := 0
      destroy_count := 0 }
  exact h

theorem destruct_thread_id (c : Codec) (g : Globals) (t : MallocTracer) :
    (MallocTracer.destruct c g t).2.thread_id = FE64 := rfl

theorem quiet_destruct (c : Codec) (g : Globals) (t : MallocTracer) :
    Quiet t.thread_id g (MallocTracer.destruct c g t).1 := by
  unfold MallocTracer.destruct
  refine ((quiet_RefreshBuffer c g t).qtrans (quiet_UpdateTSAndCPU _ c _ _)).qtrans
    (quiet_append_buf_locked _ _ _ ?_)
  intro id h
  simp only [SinkItem.thread_id?, Option.some.injEq] at h
  rw [← h, UpdateTSAndCPU_thread_id, RefreshBuffer_thread_id]

/-! ## Effects of the dumper -/

theorem Dumped.drefl (P : Nat → Prop) (g : Globals) : Dumped P g g :=
  ⟨rfl, id, [], by simp, by simp, by simp, by simp [header_sizes]⟩

theorem header_sizes_append (a b : List SinkItem) :
    header_sizes (a ++ b) = header_sizes a + header_sizes b := by
  induction a with
  | nil => simp [header_sizes]
  | cons x xs ih => cases x <;> simp [header_sizes, ih] <;> omega

theorem Dumped.dtrans {P : Nat → Prop} {g1 g2 g3 : Globals} (h12 : Dumped P g1 g2)
    (h23 : Dumped P g2 g3) : Dumped P g1 g3 := by
  obtain ⟨d1, hs1, hn1, hw1, ha1⟩ := h12.sink
  obtain ⟨d2, hs2, hn2, hw2, ha2⟩ := h23.sink
  refine ⟨h23.no_more_writes.trans h12.no_more_writes,
    fun h => h23.bounded (h12.bounded h), d1 ++ d2, ?_, ?_, ?_, ?_⟩
  · rw [hs2, hs1, List.append_assoc]
  · intro h
    rw [hn1 h, hn2 (h12.no_more_writes.trans h)]
    rfl
  · intro x hx
    rcases List.mem_append.1 hx with h | h
    · exact hw1 x h
    · exact hw2 x h
  · intro h
    have e1 := ha1 h
    have e2 := ha2 (h12.no_more_writes.trans h)
    rw [header_sizes_append]
    unfold U64 at *
    omega

theorem dumped_DumpFromSaverThread (c : Codec) (g : Globals) (t : MallocTracer) :
    Dumped (· = t.thread_id) g (MallocTracer.DumpFromSaverThread c g t).1 := by
  by_cases hs : ptr_diff t.signal_snapshot_buf_ptr t.signal_saved_buf_ptr = 0
  · simp only [MallocTracer.DumpFromSaverThread, hs, if_true]
    exact Dumped.drefl _ g
  · simp only [MallocTracer.DumpFromSaverThread, hs, if_false]
    by_cases hw : g.no_more_writes = true
    · refine ⟨?_, fun _ => Nat.mod_lt _ (by decide), [], ?_, by simp, by simp, by simp [hw]⟩ <;>
        simp [MallocTracer.RefreshBufferInnerLocked, append_buf_locked, get_nanos, hw]
    · simp only [Bool.not_eq_true] at hw
      have hg : (get_nanos g).2.no_more_writes = false := hw
      refine ⟨?_, fun _ => Nat.mod_lt _ (by decide),
        [.buffer_header t.thread_id (c.bundle_ts_and_cpu (get_nanos g).1 t.last_cpu)
          (ptr_diff t.signal_snapshot_buf_ptr t.signal_saved_buf_ptr),
          .raw (readAt t.buf_storage t.signal_saved_buf_ptr
            (ptr_diff t.signal_snapshot_buf_ptr t.signal_saved_buf_ptr))],
        ?_, by simp [hw], ?_, ?_⟩
      · simp [MallocTracer.RefreshBufferInnerLocked, append_buf_locked, get_nanos, hw]
      · simp only [inner_sink _ _ _ _ hg]
        rfl
      · intro x hx id hid
        simp only [List.mem_cons, List.mem_singleton, List.not_mem_nil, or_false] at hx
        rcases hx with rfl | rfl <;> simp_all [SinkItem.thread_id?]
      · intro _
        have hq := (quiet_RefreshBufferInnerLocked (get_nanos g).2 t
          (ptr_diff t.signal_snapshot_buf_ptr t.signal_saved_buf_ptr)
          (c.bundle_ts_and_cpu (get_nanos g).1 t.last_cpu)).thread_dump_written
        simp only [hq]
        simp [header_sizes, get_nanos]

/-! ## Effects of the operations of the process -/

@[simp] theorem upd_same {α β : Type} [DecidableEq α] (f : α → β) (k : α) (v : β) :
    upd f k v k = v := by simp [upd]

theorem upd_other {α β : Type} [DecidableEq α] (f : α → β) (k : α) (v : β) (x : α)
    (h : x ≠ k) : upd f k v x = f x := by simp [upd, h]

theorem PStep.prefl (s : Process) : PStep s s :=
  ⟨rfl, rfl, id, id, fun _ => ⟨[], by simp, by simp⟩, fun _ _ => rfl⟩

theorem PStep.ptrans {s1 s2 s3 : Process} (h12 : PStep s1 s2) (h23 : PStep s2 s3) :
    PStep s1 s3 := by
  refine ⟨h23.no_more_writes.trans h12.no_more_writes,
    h23.thread_dump_written.trans h12.thread_dump_written,
    fun h => h23.setup_once (h12.setup_once h), fun h => h23.keeps_ids (h12.keeps_ids h), ?_, ?_⟩
  · intro h
    obtain ⟨d1, hs1, hw1⟩ := h12.sink h
    obtain ⟨d2, hs2, hw2⟩ := h23.sink (h12.keeps_ids h)
    refine ⟨d1 ++ d2, by rw [hs2, hs1, List.append_assoc], ?_⟩
    intro x hx
    rcases List.mem_append.1 hx with h | h
    · exact hw1 x h
    · exact hw2 x h
  · intro hn hs
    have hmid : s2.setup_once = s1.setup_once := by
      cases h1 : s1.setup_once
      · cases h2 : s2.setup_once
        · rfl
        · have h3 := h23.setup_once h2
          rw [hs, h1] at h3
          exact absurd h3 (by decide)
      · exact h12.setup_once h1
    rw [h23.frozen (h12.no_more_writes.trans hn) (hs.trans hmid.symm), h12.frozen hn hmid]

/-- A step that only changes the globals quietly on behalf of thread id `tid`, and
possibly stores a tracer with `thread_id_ = tid'` at `tp`. -/
theorem PStep.of_quiet {s s' : Process} {tid : Nat} (hq : Quiet tid s.g s'.g)
    (hs : s'.setup_once = s.setup_once) (htid : ids_ok s → tid ≠ 1)
    (hinv : ids_ok s → ids_ok s') : PStep s s' := by
  obtain ⟨d, hd, hn, hw⟩ := hq.sink
  refine ⟨hq.no_more_writes, hq.thread_dump_written, fun h => hs.trans h, hinv, ?_, ?_⟩
  · intro h
    refine ⟨d, hd, fun x hx id hid => ?_⟩
    rw [hw x hx id hid]
    exact htid h
  · intro h _
    rw [hd, hn h, List.append_nil]

/-- Storing at `tp` a tracer whose `thread_id_` is what was there before keeps `ids_ok`. -/
theorem ids_ok_upd_same_id {s s' : Process} {tp : TracerPtr} {t : MallocTracer}
    (htr : s'.tracers = upd s.tracers tp t) (hid : t.thread_id = (s.tracers tp).thread_id)
    (h : ids_ok s) : ids_ok s' := by
  unfold ids_ok at *
  rw [htr]
  constructor
  · intro x
    by_cases hx : x = tp
    · subst hx; rw [upd_same, hid]; exact h.1 x
    · rw [upd_other _ _ _ _ hx]; exact h.1 x
  · by_cases hx : TracerPtr.first = tp
    · subst hx; rw [upd_same, hid]; exact h.2
    · rw [upd_other _ _ _ _ hx]; exact h.2

/-- A tracer method that keeps `thread_id_` and is quiet, run on the tracer at `tp`. -/
theorem pstep_on_tracer (f : Globals → MallocTracer → Globals × MallocTracer)
    (hq : ∀ g t, Quiet t.thread_id g (f g t).1)
    (hid : ∀ g t, (f g t).2.thread_id = t.thread_id) (tp : TracerPtr) (s : Process) :
    PStep s (on_tracer f tp s) :=
  PStep.of_quiet (hq s.g (s.tracers tp)) rfl (fun h => h.1 tp)
    (ids_ok_upd_same_id rfl (hid _ _))

theorem pstep_SetupFirstTracer (c : Codec) (s : Process) : PStep s (SetupFirstTracer c s) := by
  have h0 : Quiet 0 s.g { (get_nanos s.g).2 with
      base_ts := Nat.land (get_nanos s.g).1 c.kTSMask } :=
    ⟨rfl, rfl, rfl, [], by simp [get_nanos], by simp, by simp⟩
  refine PStep.of_quiet (h0.qtrans (quiet_construct c _ _ 0)) rfl (fun _ => by decide) ?_
  intro h
  unfold ids_ok at *
  simp only [SetupFirstTracer, upd_same, construct_thread_id, true_or, and_true]
  intro x
  by_cases hx : x = .first
  · subst hx; rw [upd_same, construct_thread_id]; decide
  · rw [upd_other _ _ _ _ hx]; exact h.1 x

theorem pstep_once_SetupFirstTracer (c : Codec) (s : Process) :
    PStep s (once_SetupFirstTracer c s) := by
  unfold once_SetupFirstTracer
  split
  · exact PStep.prefl s
  · have h := pstep_SetupFirstTracer c s
    exact ⟨h.no_more_writes, h.thread_dump_written, h.setup_once, h.keeps_ids, h.sink, h.frozen⟩

theorem pstep_once_DoSetupTLS (th : Nat) (s : Process) : PStep s (once_DoSetupTLS th s) := by
  unfold once_DoSetupTLS
  split
  · exact PStep.prefl s
  · rename_i hs
    refine ⟨rfl, rfl, fun _ => rfl, id, fun _ => ⟨[.magic], rfl, ?_⟩,
      fun _ h => absurd h.symm hs⟩
    simp [SinkItem.thread_id?]

theorem pstep_draw_thread_id (th : Nat) (s : Process) : PStep s (draw_thread_id th s).2 := by
  unfold draw_thread_id
  split
  · exact ⟨rfl, rfl, id, id, fun _ => ⟨[], by simp, by simp⟩, fun _ _ => rfl⟩
  · exact PStep.prefl s

theorem pstep_pick_instance (c : Codec) (id : Nat) (s : Process) :
    PStep s (pick_instance c id s).2 := by
  unfold pick_instance
  split
  · exact PStep.prefl s
  · rename_i hid
    refine PStep.of_quiet (quiet_construct c _ _ id) rfl (fun _ => hid) ?_
    intro h
    unfold ids_ok at *
    simp only
    refine ⟨fun x => ?_, ?_⟩
    · by_cases hx : x = .slab s.allocator.New.1
      · subst hx; rw [upd_same, construct_thread_id]; exact hid
      · rw [upd_other _ _ _ _ hx]; exact h.1 x
    · rw [upd_other _ _ _ _ (by simp)]; exact h.2

/-- A step that leaves the globals, the tracer memory and `setup_once` alone. -/
theorem PStep.of_same {s s' : Process} (hg : s'.g = s.g) (ht : s'.tracers = s.tracers)
    (hs : s'.setup_once = s.setup_once) : PStep s s' := by
  refine ⟨by rw [hg], by rw [hg], fun h => hs.trans h, ?_, fun _ => ⟨[], by simp [hg], by simp⟩,
    fun _ _ => by rw [hg]⟩
  unfold ids_ok
  rw [ht]
  exact id

theorem store_through_same {pp : StoragePP} {v : StoragePtr} {s s' : Process}
    (h : store_through pp v s = some s') :
    s'.g = s.g ∧ s'.tracers = s.tracers ∧ s'.setup_once = s.setup_once ∧
      s'.had_tracer = s.had_tracer ∧ s'.allocator = s.allocator ∧ s'.specific = s.specific := by
  cases pp <;> simp [store_through] at h <;> subst h <;> simp

theorem set_pprev_if_same {p : StoragePtr} {pp : StoragePP} {s s' : Process}
    (h : set_pprev_if p pp s = some s') :
    s'.g = s.g ∧ s'.tracers = s.tracers ∧ s'.setup_once = s.setup_once ∧
      s'.had_tracer = s.had_tracer ∧ s'.allocator = s.allocator ∧ s'.specific = s.specific := by
  cases p <;> simp [set_pprev_if] at h <;> subst h <;> simp

theorem link_instance_same {th : Nat} {tp : TracerPtr} {s s' : Process}
    (h : link_instance th tp s = some s') :
    s'.g = s.g ∧ s'.tracers = s.tracers ∧ s'.setup_once = s.setup_once ∧
      s'.had_tracer = s.had_tracer ∧ s'.allocator = s.allocator ∧ s'.specific = s.specific := by
  simp only [link_instance, Option.map_eq_some'] at h
  obtain ⟨s2, h2, rfl⟩ := h
  have := set_pprev_if_same h2
  simpa using this

theorem pstep_GetInstanceSlow {c : Codec} {th : Nat} {s : Process} {r : TracerPtr × Process}
    (h : GetInstanceSlow c th s = some r) : PStep s r.2 := by
  simp only [GetInstanceSlow] at h
  have h1 := pstep_once_SetupFirstTracer c s
  split at h
  · simp only [Option.some.injEq] at h
    subst h
    exact h1
  · simp only [Option.map_eq_some'] at h
    obtain ⟨s3, h3, rfl⟩ := h
    have h2 := pstep_once_DoSetupTLS th (once_SetupFirstTracer c s)
    have h4 := pstep_draw_thread_id th (once_DoSetupTLS th (once_SetupFirstTracer c s))
    have h5 := pstep_pick_instance c
      (draw_thread_id th (once_DoSetupTLS th (once_SetupFirstTracer c s))).1
      (draw_thread_id th (once_DoSetupTLS th (once_SetupFirstTracer c s))).2
    obtain ⟨e1, e2, e3, -⟩ := link_instance_same h3
    have h6 : PStep _ s3 := PStep.of_same e1 e2 e3
    refine (((h1.ptrans h2).ptrans h4).ptrans h5).ptrans (h6.ptrans ?_)
    simp only
    split
    · exact PStep.of_same rfl rfl rfl
    · exact PStep.prefl s3

theorem destructor_unlink_same {th : Nat} {s s' : Process}
    (h : destructor_unlink th s = some s') :
    s'.g = s.g ∧ s'.tracers = s.tracers ∧ s'.setup_once = s.setup_once ∧
      s'.had_tracer = s.had_tracer ∧ s'.allocator = s.allocator ∧ s'.specific = s.specific := by
  unfold destructor_unlink at h
  split at h
  · simp only [Option.some.injEq] at h
    subst h
    simp
  · simp only [Option.bind_eq_some, Option.map_eq_some'] at h
    obtain ⟨s1, h1, s2, h2, rfl⟩ := h
    have e1 := store_through_same h1
    have e2 := set_pprev_if_same h2
    simp only
    refine ⟨e2.1.trans e1.1, e2.2.1.trans e1.2.1, e2.2.2.1.trans e1.2.2.1,
      e2.2.2.2.1.trans e1.2.2.2.1, e2.2.2.2.2.1.trans e1.2.2.2.2.1,
      e2.2.2.2.2.2.trans e1.2.2.2.2.2⟩

theorem FE64_ne_one : FE64 ≠ 1 := by decide

theorem pstep_MallocTracerDestructor {c : Codec} {th : Nat} {s s' : Process}
    (h : MallocTracerDestructor c th s = some s') : PStep s s' := by
  unfold MallocTracerDestructor at h
  split at h
  · simp at h
  · split at h
    · simp at h
    · rename_i tp htp
      simp only at h
      have hcount : PStep s { s with
          tracers := upd s.tracers tp
            { (s.tracers tp) with destroy_count := (s.tracers tp).destroy_count + 1 } } :=
        PStep.of_quiet (Quiet.qrefl (s.tracers tp).thread_id s.g) rfl (fun h => h.1 tp)
          (ids_ok_upd_same_id rfl rfl)
      split at h
      · simp only [Option.some.injEq] at h
        subst h
        exact hcount.ptrans (PStep.of_same rfl rfl rfl)
      · simp only [Option.map_eq_some'] at h
        obtain ⟨s2, h2, rfl⟩ := h
        obtain ⟨e1, e2, e3, -⟩ := destructor_unlink_same h2
        have hunlink : PStep _ s2 := PStep.of_same e1 e2 e3
        refine (hcount.ptrans hunlink).ptrans ?_
        have hd : PStep s2 { s2 with
            had_tracer := upd s2.had_tracer th true
            instance_ := upd s2.instance_ th { (s2.instance_ th) with ptr := none }
            g := (MallocTracer.destruct c s2.g (s2.tracers tp)).1
            tracers := upd s2.tracers tp (MallocTracer.destruct c s2.g (s2.tracers tp)).2 } := by
          refine PStep.of_quiet (quiet_destruct c s2.g (s2.tracers tp)) rfl (fun h => h.1 tp) ?_
          intro hi
          unfold ids_ok at *
          simp only
          refine ⟨fun x => ?_, ?_⟩
          · by_cases hx : x = tp
            · subst hx; rw [upd_same, destruct_thread_id]; exact FE64_ne_one
            · rw [upd_other _ _ _ _ hx]; exact hi.1 x
          · by_cases hx : TracerPtr.first = tp
            · subst hx; rw [upd_same, destruct_thread_id]; exact Or.inr rfl
            · rw [upd_other _ _ _ _ hx]; exact hi.2
        refine hd.ptrans ?_
        cases tp with
        | first => exact PStep.prefl _
        | slab slot => exact PStep.of_same rfl rfl rfl

theorem pstep_GetInstance {c : Codec} {th : Nat} {s : Process} {r : TracerPtr × Process}
    (h : GetInstance c th s = some r) : PStep s r.2 := by
  unfold GetInstance at h
  split at h
  · simp only [Option.some.injEq] at h
    subst h
    exact PStep.prefl s
  · exact pstep_GetInstanceSlow h

theorem pstep_ExcludeCurrentThreadFromDumping {c : Codec} {th : Nat} {s s' : Process}
    (h : ExcludeCurrentThreadFromDumping c th s = some s') : PStep s s' := by
  simp only [ExcludeCurrentThreadFromDumping, Option.bind_eq_some] at h
  obtain ⟨r, hr, h⟩ := h
  refine (pstep_GetInstance hr).ptrans ?_
  split at h
  · simp only [Option.some.injEq] at h
    subst h
    exact PStep.prefl _
  · simp only [Option.map_eq_some'] at h
    obtain ⟨s2, h2, rfl⟩ := h
    obtain ⟨e1, e2, e3, -⟩ := store_through_same h2
    exact PStep.of_same e1 e2 e3

/-! ## Effects of a dump pass -/

theorem snapshot_all_thread_id (l : List TracerPtr) :
    ∀ (tr : TracerPtr → MallocTracer) (x : TracerPtr),
      (snapshot_all l tr x).thread_id = (tr x).thread_id := by
  induction l with
  | nil => intro tr x; rfl
  | cons tp rest ih =>
    intro tr x
    simp only [snapshot_all, List.foldl_cons] at ih ⊢
    rw [ih]
    by_cases hx : x = tp
    · subst hx; rw [upd_same]
    · rw [upd_other _ _ _ _ hx]

theorem DumpFromSaverThread_thread_id (c : Codec) (g : Globals) (t : MallocTracer) :
    (MallocTracer.DumpFromSaverThread c g t).2.thread_id = t.thread_id := by
  simp only [MallocTracer.DumpFromSaverThread]
  split <;> rfl

theorem dump_one_thread_id (c : Codec) (st : Globals × (TracerPtr → MallocTracer))
    (tp x : TracerPtr) : ((dump_one c st tp).2 x).thread_id = (st.2 x).thread_id := by
  unfold dump_one
  split
  · rfl
  · simp only
    by_cases hx : x = tp
    · subst hx; rw [upd_same, DumpFromSaverThread_thread_id]
    · rw [upd_other _ _ _ _ hx]

theorem Dumped.mono {P Q : Nat → Prop} {g g' : Globals} (h : Dumped P g g')
    (hPQ : ∀ id, P id → Q id) : Dumped Q g g' := by
  obtain ⟨d, hs, hn, hw, ha⟩ := h.sink
  exact ⟨h.no_more_writes, h.bounded, d, hs, hn, fun x hx id hid => hPQ id (hw x hx id hid), ha⟩

theorem dumped_dump_one (c : Codec) (P : Nat → Prop)
    (st : Globals × (TracerPtr → MallocTracer)) (tp : TracerPtr)
    (hP : ∀ x, P (st.2 x).thread_id) : Dumped P st.1 (dump_one c st tp).1 := by
  unfold dump_one
  split
  · exact Dumped.drefl P st.1
  · exact (dumped_DumpFromSaverThread c st.1 (st.2 tp)).mono (fun id h => h ▸ hP tp)

theorem dumped_dump_all (c : Codec) (P : Nat → Prop) (l : List TracerPtr) :
    ∀ (st : Globals × (TracerPtr → MallocTracer)), (∀ x, P (st.2 x).thread_id) →
      Dumped P st.1 (dump_all c l st).1 ∧
        ∀ x, ((dump_all c l st).2 x).thread_id = (st.2 x).thread_id := by
  induction l with
  | nil => intro st _; exact ⟨Dumped.drefl P st.1, fun _ => rfl⟩
  | cons tp rest ih =>
    intro st hP
    simp only [dump_all, List.foldl_cons] at ih ⊢
    have h1 := dumped_dump_one c P st tp hP
    have hid := dump_one_thread_id c st tp
    obtain ⟨h2, hid2⟩ := ih (dump_one c st tp) (fun x => by rw [hid]; exact hP x)
    exact ⟨h1.dtrans h2, fun x => by rw [hid2, hid]⟩

theorem dumped_sync_barrier (P : Nat → Prop) (g : Globals) (ts : Nat) :
    Dumped P g (append_buf_locked (sched_getcpu (get_nanos g).2).2 (.sync_barrier ts)) := by
  unfold append_buf_locked
  split
  · rename_i h
    have hg : g.no_more_writes = true := h
    exact ⟨rfl, id, [], by simp [sched_getcpu, get_nanos], by simp, by simp, by simp [hg]⟩
  · exact ⟨rfl, id, [.sync_barrier ts], by simp [sched_getcpu, get_nanos], by simp_all [sched_getcpu, get_nanos],
      by simp [SinkItem.thread_id?], by simp [header_sizes, sched_getcpu, get_nanos]⟩

/-- A dump pass: its effect on the globals, and the thread ids in the tracer memory. -/
theorem dumped_DumpEverything {c : Codec} {fuel : Nat} {s s' : Process} (P : Nat → Prop)
    (hP : ∀ x, P (s.tracers x).thread_id)
    (h : DumpEverything c fuel s = some s') :
    Dumped P s.g s'.g ∧ (∀ x, (s'.tracers x).thread_id = (s.tracers x).thread_id) ∧
      s'.setup_once = s.setup_once := by
  unfold DumpEverything at h
  split at h
  · simp only [Option.some.injEq] at h
    subst h
    exact ⟨Dumped.drefl P _, fun _ => rfl, rfl⟩
  · simp only [Option.map_eq_some'] at h
    obtain ⟨l, -, rfl⟩ := h
    have hs := snapshot_all_thread_id l s.tracers
    obtain ⟨h1, h2⟩ := dumped_dump_all c P l (s.g, snapshot_all l s.tracers)
      (fun x => by rw [hs]; exact hP x)
    refine ⟨h1.dtrans (dumped_sync_barrier P _ _), fun x => ?_, rfl⟩
    simp only
    rw [h2, hs]

/-- Every operation other than a dump pass and `finalize_tracing` is a `PStep`. -/
theorem pstep_of_step {c : Codec} {s s' : Process} {op : Op}
    (hd : ∀ fuel, op ≠ .DumpEverything fuel) (hf : op ≠ .finalize_tracing)
    (h : Op.step c s op = some s') : PStep s s' := by
  cases op with
  | GetInstanceSlow th =>
    simp only [Op.step, Option.map_eq_some'] at h
    obtain ⟨r, hr, rfl⟩ := h
    exact pstep_GetInstanceSlow hr
  | MallocTracerDestructor th => exact pstep_MallocTracerDestructor h
  | ExcludeCurrentThreadFromDumping th => exact pstep_ExcludeCurrentThreadFromDumping h
  | DumpEverything fuel => exact absurd rfl (hd fuel)
  | AppendWords tp words =>
    simp only [Op.step, Option.some.injEq] at h
    subst h
    exact pstep_on_tracer _ (fun g t => quiet_AppendWords c g t words)
      (fun g t => AppendWords_thread_id c g t words) tp s
  | RefreshBuffer tp =>
    simp only [Op.step, Option.some.injEq] at h
    subst h
    exact pstep_on_tracer _ (quiet_RefreshBuffer c) (RefreshBuffer_thread_id c) tp s
  | RefreshTokenAndDec tp =>
    simp only [Op.step, Option.some.injEq] at h
    subst h
    exact pstep_on_tracer _ (quiet_RefreshTokenAndDec c) (RefreshTokenAndDec_thread_id c) tp s
  | finalize_tracing => exact absurd rfl hf

theorem ids_ok_of_same_ids {s s' : Process}
    (h : ∀ x, (s'.tracers x).thread_id = (s.tracers x).thread_id) (hi : ids_ok s) :
    ids_ok s' := by
  unfold ids_ok at *
  exact ⟨fun x => by rw [h]; exact hi.1 x, by rw [h]; exact hi.2⟩

/-- The thread ids in the tracer memory and in the sink, over one operation. -/
theorem step_ids {c : Codec} {s s' : Process} {op : Op} (h : Op.step c s op = some s')
    (hi : ids_ok s) (hs : ∀ x ∈ s.g.sink, ∀ id, x.thread_id? = some id → id ≠ 1) :
    ids_ok s' ∧ ∀ x ∈ s'.g.sink, ∀ id, x.thread_id? = some id → id ≠ 1 := by
  by_cases hd : ∃ fuel, op = .DumpEverything fuel
  · obtain ⟨fuel, rfl⟩ := hd
    obtain ⟨h1, h2, -⟩ := dumped_DumpEverything (· ≠ 1) hi.1 h
    obtain ⟨d, hd, -, hw, -⟩ := h1.sink
    refine ⟨ids_ok_of_same_ids h2 hi, fun x hx => ?_⟩
    rw [hd] at hx
    rcases List.mem_append.1 hx with h | h
    · exact hs x h
    · exact hw x h
  · by_cases hf : op = .finalize_tracing
    · subst hf
      simp only [Op.step, Option.some.injEq] at h
      subst h
      refine ⟨hi, fun x hx => ?_⟩
      simp only [finalize_tracing, List.mem_append, List.mem_singleton] at hx
      rcases hx with h | rfl
      · exact hs x h
      · simp [SinkItem.thread_id?]
    · have hp := pstep_of_step (fun fuel e => hd ⟨fuel, e⟩) hf h
      obtain ⟨d, hd, hw⟩ := hp.sink hi
      refine ⟨hp.keeps_ids hi, fun x hx => ?_⟩
      rw [hd] at hx
      rcases List.mem_append.1 hx with h | h
      · exact hs x h
      · exact hw x h

theorem run_ids (c : Codec) (ops : List Op) :
    ∀ (s s' : Process), run c ops s = some s' → ids_ok s →
      (∀ x ∈ s.g.sink, ∀ id, x.thread_id? = some id → id ≠ 1) →
      ids_ok s' ∧ ∀ x ∈ s'.g.sink, ∀ id, x.thread_id? = some id → id ≠ 1 := by
  induction ops with
  | nil =>
    intro s s' h hi hs
    simp only [run, Option.some.injEq] at h
    subst h
    exact ⟨hi, hs⟩
  | cons op rest ih =>
    intro s s' h hi hs
    simp only [run, Option.bind_eq_some] at h
    obtain ⟨s1, h1, h2⟩ := h
    obtain ⟨hi1, hs1⟩ := step_ids h1 hi hs
    exact ih s1 s' h2 hi1 hs1

/-! ## The thread id of the bootstrap tracer -/

theorem sink_added_of_append {g g' : Globals} {d : List SinkItem}
    (h : g'.sink = g.sink ++ d) : sink_added g g' = d := by
  simp [sink_added, h]

theorem quiet_added {tid : Nat} {g g' : Globals} (h : Quiet tid g g') :
    ∀ x ∈ sink_added g g', ∀ id, x.thread_id? = some id → id = tid := by
  obtain ⟨d, hd, -, hw⟩ := h.sink
  rw [sink_added_of_append hd]
  exact hw

theorem dumped_added {P : Nat → Prop} {g g' : Globals} (h : Dumped P g g') :
    ∀ x ∈ sink_added g g', ∀ id, x.thread_id? = some id → P id := by
  obtain ⟨d, hd, -, hw, -⟩ := h.sink
  rw [sink_added_of_append hd]
  exact hw

/-- The chunk `RefreshBuffer` writes when there are pending bytes. -/
theorem RefreshBuffer_sink (c : Codec) (g : Globals) (t : MallocTracer)
    (hw : g.no_more_writes = false) (hne : t.buf_ptr ≠ t.signal_saved_buf_ptr) :
    (MallocTracer.RefreshBuffer c g t).1.sink =
      g.sink ++ [.buffer_header t.thread_id (MallocTracer.UpdateTSAndCPU c g t).1
          (ptr_diff t.buf_ptr t.signal_saved_buf_ptr),
        .raw (readAt t.buf_storage t.signal_saved_buf_ptr
          (ptr_diff t.buf_ptr t.signal_saved_buf_ptr))] := by
  simp [MallocTracer.RefreshBuffer, hne, inner_sink, MallocTracer.UpdateTSAndCPU, get_nanos,
    sched_getcpu, hw]

/-- The chunk `DumpFromSaverThread` writes when the snapshot is ahead. -/
theorem DumpFromSaverThread_sink (c : Codec) (g : Globals) (t : MallocTracer)
    (hw : g.no_more_writes = false)
    (hne : ptr_diff t.signal_snapshot_buf_ptr t.signal_saved_buf_ptr ≠ 0) :
    (MallocTracer.DumpFromSaverThread c g t).1.sink =
      g.sink ++ [.buffer_header t.thread_id (c.bundle_ts_and_cpu (get_nanos g).1 t.last_cpu)
          (ptr_diff t.signal_snapshot_buf_ptr t.signal_saved_buf_ptr),
        .raw (readAt t.buf_storage t.signal_saved_buf_ptr
          (ptr_diff t.signal_snapshot_buf_ptr t.signal_saved_buf_ptr))] := by
  simp [MallocTracer.DumpFromSaverThread, hne, inner_sink, get_nanos, hw]

/-- The DEATH record is the last thing `~MallocTracer` writes, and it carries the
tracer's `thread_id_`. -/
theorem destruct_sink (c : Codec) (g : Globals) (t : MallocTracer)
    (hw : g.no_more_writes = false) :
    ∃ ts, (MallocTracer.destruct c g t).1.sink =
      (MallocTracer.RefreshBuffer c g t).1.sink ++ [.death t.thread_id ts] := by
  have h1 := (quiet_RefreshBuffer c g t).no_more_writes
  have h2 := (quiet_UpdateTSAndCPU t.thread_id c (MallocTracer.RefreshBuffer c g t).1
    (MallocTracer.RefreshBuffer c g t).2).no_more_writes
  have h3 : (MallocTracer.UpdateTSAndCPU c (MallocTracer.RefreshBuffer c g t).1
      (MallocTracer.RefreshBuffer c g t).2).2.1.no_more_writes = false := by
    rw [h2, h1, hw]
  refine ⟨(MallocTracer.UpdateTSAndCPU c (MallocTracer.RefreshBuffer c g t).1
      (MallocTracer.RefreshBuffer c g t).2).1, ?_⟩
  simp only [MallocTracer.destruct, append_buf_locked, h3, Bool.false_eq_true, if_false,
    UpdateTSAndCPU_thread_id, RefreshBuffer_thread_id]
  simp [MallocTracer.UpdateTSAndCPU, get_nanos, sched_getcpu]

/-- The globals after a call of the TLS destructor: untouched by an early call, those
of `~MallocTracer` run on the thread's tracer by the call that tears down. -/
theorem MallocTracerDestructor_globals {c : Codec} {th : Nat} {s s' : Process}
    {tp : TracerPtr} (hp : (s.instance_ th).ptr = some tp)
    (h : MallocTracerDestructor c th s = some s') :
    ((s.tracers tp).destroy_count < 3 ∧ s'.g = s.g) ∨
    (¬ (s.tracers tp).destroy_count < 3 ∧
      s'.g = (MallocTracer.destruct c s.g
        { (s.tracers tp) with destroy_count := (s.tracers tp).destroy_count + 1 }).1) := by
  unfold MallocTracerDestructor at h
  split at h
  · simp at h
  · rw [hp] at h
    simp only at h
    split at h
    · rename_i hlt
      simp only [Option.some.injEq] at h
      subst h
      exact Or.inl ⟨hlt, rfl⟩
    · rename_i hge
      simp only [Option.map_eq_some'] at h
      obtain ⟨s2, h2, rfl⟩ := h
      obtain ⟨e1, e2, -⟩ := destructor_unlink_same h2
      refine Or.inr ⟨hge, ?_⟩
      cases tp <;> simp [e1, e2]

theorem once_SetupFirstTracer_keeps (c : Codec) (s : Process) :
    (once_SetupFirstTracer c s).in_setup = s.in_setup ∧
      (once_SetupFirstTracer c s).had_tracer = s.had_tracer ∧
      (once_SetupFirstTracer c s).g.thread_id_counter = s.g.thread_id_counter := by
  unfold once_SetupFirstTracer
  split
  · exact ⟨rfl, rfl, rfl⟩
  · refine ⟨rfl, rfl, ?_⟩
    simp only [SetupFirstTracer]
    exact (quiet_construct c _ _ 0).thread_id_counter

/-- A thread that has had no tracer and draws `thread_id_counter` value 1 is handed
the first tracer. -/
theorem GetInstanceSlow_draws_one {c : Codec} {th : Nat} {s : Process}
    {r : TracerPtr × Process} (h : GetInstanceSlow c th s = some r)
    (hin : s.in_setup th = false) (hh : s.had_tracer th = false)
    (hone : (s.g.thread_id_counter + 1) % U64 = 1) : r.1 = .first := by
  obtain ⟨k1, k2, k3⟩ := once_SetupFirstTracer_keeps c s
  have hd : (draw_thread_id th (once_DoSetupTLS th (once_SetupFirstTracer c s))).1 = 1 := by
    have e1 : (once_DoSetupTLS th (once_SetupFirstTracer c s)).had_tracer th = false := by
      unfold once_DoSetupTLS
      split
      · rw [k2, hh]
      · show (once_SetupFirstTracer c s).had_tracer th = false
        rw [k2, hh]
    have e2 : (once_DoSetupTLS th (once_SetupFirstTracer c s)).g.thread_id_counter =
        s.g.thread_id_counter := by
      unfold once_DoSetupTLS
      split
      · exact k3
      · exact k3
    simp only [draw_thread_id, e1, Bool.not_false, if_true, e2]
    exact hone
  simp only [GetInstanceSlow, k1, hin, Bool.false_eq_true, if_false, Option.map_eq_some']
    at h
  obtain ⟨s3, -, rfl⟩ := h
  simp only [pick_instance, hd, if_true]

/-- C4 (amended). From program start, after any run of operations: the bootstrap
tracer, the one in the static scratch area, holds `thread_id_ = 0`, or the `0xfe`
pattern once its destructor has poisoned it; a thread that draws `thread_id_counter`
value 1 is handed this tracer; as long as it is not poisoned, whatever `RefreshBuffer`,
`DumpFromSaverThread`, `AppendWords`, `RefreshTokenAndDec`, its destructor and the TLS
destructor of the thread holding it add to the sink carries no thread id but 0, its
chunk headers are
`buffer_header 0 ..` and the record its destructor ends with is `death 0 ..`; no tracer
memory holds `thread_id_ = 1`, and no chunk header or DEATH record in the sink carries
thread id 1. -/
theorem bootstrap_thread_id_is_zero (c : Codec) (size : Nat) (clock : List Nat)
    (cpus : List Int) (ops : List Op) (s : Process)
    (h : run c ops (Process.init size clock cpus) = some s) :
    ((s.tracers .first).thread_id = 0 ∨ (s.tracers .first).thread_id = FE64) ∧
    (∀ tp, (s.tracers tp).thread_id ≠ 1) ∧
    (∀ x ∈ s.g.sink, x.thread_id? ≠ some 1) ∧
    (∀ th r, GetInstanceSlow c th s = some r → s.in_setup th = false →
      s.had_tracer th = false → (s.g.thread_id_counter + 1) % U64 = 1 →
      r.1 = .first ∧
        ((r.2.tracers .first).thread_id = 0 ∨ (r.2.tracers .first).thread_id = FE64)) ∧
    ((s.tracers .first).thread_id ≠ FE64 →
      (∀ x ∈ sink_added s.g (MallocTracer.RefreshBuffer c s.g (s.tracers .first)).1,
        ∀ id, x.thread_id? = some id → id = 0) ∧
      (∀ x ∈ sink_added s.g (MallocTracer.DumpFromSaverThread c s.g (s.tracers .first)).1,
        ∀ id, x.thread_id? = some id → id = 0) ∧
      (∀ x ∈ sink_added s.g (MallocTracer.destruct c s.g (s.tracers .first)).1,
        ∀ id, x.thread_id? = some id → id = 0) ∧
      (∀ words, ∀ x ∈ sink_added s.g
          (MallocTracer.AppendWords c s.g (s.tracers .first) words).1,
        ∀ id, x.thread_id? = some id → id = 0) ∧
      (∀ x ∈ sink_added s.g (MallocTracer.RefreshTokenAndDec c s.g (s.tracers .first)).1,
        ∀ id, x.thread_id? = some id → id = 0) ∧
      (∀ th s', (s.instance_ th).ptr = some .first →
        MallocTracerDestructor c th s = some s' →
        (∀ x ∈ sink_added s.g s'.g, ∀ id, x.thread_id? = some id → id = 0) ∧
        (s.g.no_more_writes = false → ¬ (s.tracers .first).destroy_count < 3 →
          ∃ ts, s'.g.sink.getLast? = some (.death 0 ts))) ∧
      (s.g.no_more_writes = false →
        (∃ ts, (MallocTracer.destruct c s.g (s.tracers .first)).1.sink.getLast? =
          some (.death 0 ts)) ∧
        ((s.tracers .first).buf_ptr ≠ (s.tracers .first).signal_saved_buf_ptr →
          ∃ ts, (MallocTracer.RefreshBuffer c s.g (s.tracers .first)).1.sink =
            s.g.sink ++ [.buffer_header 0 ts
                (ptr_diff (s.tracers .first).buf_ptr (s.tracers .first).signal_saved_buf_ptr),
              .raw (readAt (s.tracers .first).buf_storage
                (s.tracers .first).signal_saved_buf_ptr
                (ptr_diff (s.tracers .first).buf_ptr
                  (s.tracers .first).signal_saved_buf_ptr))]) ∧
        (ptr_diff (s.tracers .first).signal_snapshot_buf_ptr
            (s.tracers .first).signal_saved_buf_ptr ≠ 0 →
          ∃ ts, (MallocTracer.DumpFromSaverThread c s.g (s.tracers .first)).1.sink =
            s.g.sink ++ [.buffer_header 0 ts
                (ptr_diff (s.tracers .first).signal_snapshot_buf_ptr
                  (s.tracers .first).signal_saved_buf_ptr),
              .raw (readAt (s.tracers .first).buf_storage
                (s.tracers .first).signal_saved_buf_ptr
                (ptr_diff (s.tracers .first).signal_snapshot_buf_ptr
                  (s.tracers .first).signal_saved_buf_ptr))]))) := by
  have h0 : ids_ok (Process.init size clock cpus) :=
    ⟨fun _ => by simp [Process.init, zero_tracer], Or.inl rfl⟩
  obtain ⟨hi, hs⟩ := run_ids c ops _ s h h0 (by simp [Process.init])
  refine ⟨hi.2, hi.1, fun x hx e => hs x hx 1 e rfl, ?_, ?_⟩
  · intro th r hr hin hh hone
    exact ⟨GetInstanceSlow_draws_one hr hin hh hone, ((pstep_GetInstanceSlow hr).keeps_ids hi).2⟩
  · intro hlive
    have hz : (s.tracers .first).thread_id = 0 := hi.2.resolve_right hlive
    have q1 := quiet_added (quiet_RefreshBuffer c s.g (s.tracers .first))
    have q2 := dumped_added (dumped_DumpFromSaverThread c s.g (s.tracers .first))
    have q3 := quiet_added (quiet_destruct c s.g (s.tracers .first))
    have q5 := fun words =>
      quiet_added (quiet_AppendWords c s.g (s.tracers .first) words)
    have q6 := quiet_added (quiet_RefreshTokenAndDec c s.g (s.tracers .first))
    rw [hz] at q1 q3 q6
    simp only [hz] at q2 q5
    refine ⟨q1, q2, q3, q5, q6, ?_, ?_⟩
    · intro th s' hp hd
      rcases MallocTracerDestructor_globals hp hd with ⟨hlt, e⟩ | ⟨hge, e⟩
      · refine ⟨?_, fun _ hc => absurd hlt hc⟩
        rw [e]
        simp [sink_added]
      · have q4 := quiet_added (quiet_destruct c s.g
          { (s.tracers .first) with
            destroy_count := (s.tracers .first).destroy_count + 1 })
        rw [← e] at q4
        refine ⟨fun x hx id hid => (q4 x hx id hid).trans hz, fun hw _ => ?_⟩
        obtain ⟨ts, hts⟩ := destruct_sink c s.g
          { (s.tracers .first) with
            destroy_count := (s.tracers .first).destroy_count + 1 } hw
        refine ⟨ts, ?_⟩
        rw [e, hts]
        simp [hz]
    · intro hw
      refine ⟨?_, ?_, ?_⟩
      · obtain ⟨ts, hts⟩ := destruct_sink c s.g (s.tracers .first) hw
        exact ⟨ts, by rw [hts]; simp [hz]⟩
      · intro hne
        exact ⟨_, by rw [RefreshBuffer_sink c s.g _ hw hne, hz]⟩
      · intro hne
        exact ⟨_, by rw [DumpFromSaverThread_sink c s.g _ hw hne, hz]⟩

theorem MallocTracerDestructor_setup_once {c : Codec} {th : Nat} {s s' : Process}
    (h : MallocTracerDestructor c th s = some s') : s'.setup_once = s.setup_once := by
  unfold MallocTracerDestructor at h
  split at h
  · simp at h
  · split at h
    · simp at h
    · rename_i tp htp
      simp only at h
      split at h
      · simp only [Option.some.injEq] at h
        subst h
        rfl
      · simp only [Option.map_eq_some'] at h
        obtain ⟨s2, h2, rfl⟩ := h
        obtain ⟨-, -, e3, -⟩ := destructor_unlink_same h2
        cases tp <;> exact e3

/-- An operation that does not go through `GetInstanceSlow` leaves `setup_once`. -/
theorem step_setup_once {c : Codec} {s s' : Process} {op : Op}
    (h : Op.step c s op = some s') (hop : op.may_setup_tls = false) :
    s'.setup_once = s.setup_once := by
  cases op with
  | GetInstanceSlow th => simp [Op.may_setup_tls] at hop
  | MallocTracerDestructor th => exact MallocTracerDestructor_setup_once h
  | ExcludeCurrentThreadFromDumping th => simp [Op.may_setup_tls] at hop
  | DumpEverything fuel =>
    exact (dumped_DumpEverything (fun _ => True) (fun _ => trivial) h).2.2
  | AppendWords tp words =>
    simp only [Op.step, Option.some.injEq] at h
    subst h
    rfl
  | RefreshBuffer tp =>
    simp only [Op.step, Option.some.injEq] at h
    subst h
    rfl
  | RefreshTokenAndDec tp =>
    simp only [Op.step, Option.some.injEq] at h
    subst h
    rfl
  | finalize_tracing =>
    simp only [Op.step, Option.some.injEq] at h
    subst h
    rfl

/-- The sink under `no_more_writes`, over one operation. -/
theorem step_frozen {c : Codec} {s s' : Process} {op : Op} (h : Op.step c s op = some s')
    (hf : op ≠ .finalize_tracing) (hw : s.g.no_more_writes = true)
    (hs : s.setup_once = true ∨ op.may_setup_tls = false) :
    s'.g.sink = s.g.sink ∧ s'.g.no_more_writes = true ∧
      (s.setup_once = true → s'.setup_once = true) := by
  by_cases hd : ∃ fuel, op = .DumpEverything fuel
  · obtain ⟨fuel, rfl⟩ := hd
    obtain ⟨h1, -, h3⟩ := dumped_DumpEverything (fun _ => True) (fun _ => trivial) h
    obtain ⟨d, hd, hn, -⟩ := h1.sink
    exact ⟨by rw [hd, hn hw, List.append_nil], h1.no_more_writes.trans hw, fun e => h3.trans e⟩
  · have hp := pstep_of_step (fun fuel e => hd ⟨fuel, e⟩) hf h
    have hsame : s'.setup_once = s.setup_once := by
      rcases hs with hs | hs
      · rw [hs]; exact hp.setup_once hs
      · exact step_setup_once h hs
    exact ⟨hp.frozen hw hsame, hp.no_more_writes.trans hw, hp.setup_once⟩

/-- C6. Once `no_more_writes` is set, no run of tracer operations appends anything to
the sink: flushes by `RefreshBuffer`, dump passes with their `DumpFromSaverThread`
calls, the tracer destructor's flush and DEATH record, token refreshes and appends all
leave the sink as it was, and so do new tracers and exclusions once the one-time TLS
setup (which writes the magic header) is behind. The same holds of the three tracer
methods taken alone. The only writer left is `finalize_tracing` itself, which writes
the END marker. -/
theorem no_more_writes_freezes_sink (c : Codec) (ops : List Op) (s s' : Process)
    (hw : s.g.no_more_writes = true)
    (hs : s.setup_once = true ∨ ∀ op ∈ ops, op.may_setup_tls = false)
    (hf : Op.finalize_tracing ∉ ops) (h : run c ops s = some s') :
    (s'.g.sink = s.g.sink ∧ s'.g.no_more_writes = true) ∧
    ∀ t : MallocTracer,
      (MallocTracer.RefreshBuffer c s.g t).1.sink = s.g.sink ∧
      (MallocTracer.DumpFromSaverThread c s.g t).1.sink = s.g.sink ∧
      (MallocTracer.destruct c s.g t).1.sink = s.g.sink := by
  refine ⟨?_, fun t => ⟨?_, ?_, ?_⟩⟩
  · induction ops generalizing s with
    | nil =>
      simp only [run, Option.some.injEq] at h
      subst h
      exact ⟨rfl, hw⟩
    | cons op rest ih =>
      simp only [run, Option.bind_eq_some] at h
      obtain ⟨s1, h1, h2⟩ := h
      simp only [List.mem_cons, not_or] at hf
      have hs1 : s.setup_once = true ∨ op.may_setup_tls = false :=
        hs.imp id (fun e => e op (List.mem_cons_self _ _))
      obtain ⟨e1, e2, e3⟩ := step_frozen h1 (fun e => hf.1 e.symm) hw hs1
      have hs2 : s1.setup_once = true ∨ ∀ o ∈ rest, o.may_setup_tls = false :=
        hs.imp e3 (fun e o ho => e o (List.mem_cons_of_mem _ ho))
      obtain ⟨r1, r2⟩ := ih s1 e2 hs2 hf.2 h2
      exact ⟨r1.trans e1, r2⟩
  · obtain ⟨d, hd, hn, -⟩ := (quiet_RefreshBuffer c s.g t).sink
    rw [hd, hn hw, List.append_nil]
  · obtain ⟨d, hd, hn, -⟩ := (dumped_DumpFromSaverThread c s.g t).sink
    rw [hd, hn hw, List.append_nil]
  · obtain ⟨d, hd, hn, -⟩ := (quiet_destruct c s.g t).sink
    rw [hd, hn hw, List.append_nil]

/-- The byte counter of the dumper, over one operation that is not
`finalize_tracing`, while `no_more_writes` is not set. -/
theorem step_accounting {c : Codec} {s s' : Process} {op : Op}
    (h : Op.step c s op = some s') (hf : op ≠ .finalize_tracing)
    (hw : s.g.no_more_writes = false) (hb : s.g.thread_dump_written < U64) :
    s'.g.no_more_writes = false ∧ s'.g.thread_dump_written < U64 ∧
      s'.g.thread_dump_written % U64 =
        (s.g.thread_dump_written + header_sizes (dumper_items c [op] s)) % U64 := by
  by_cases hd : ∃ fuel, op = .DumpEverything fuel
  · obtain ⟨fuel, rfl⟩ := hd
    obtain ⟨h1, -, -⟩ := dumped_DumpEverything (fun _ => True) (fun _ => trivial) h
    obtain ⟨d, hd, -, -, ha⟩ := h1.sink
    refine ⟨h1.no_more_writes.trans hw, h1.bounded hb, ?_⟩
    simp only [dumper_items, h, hd, List.drop_left, List.append_nil]
    exact ha hw
  · have hp := pstep_of_step (fun fuel e => hd ⟨fuel, e⟩) hf h
    refine ⟨hp.no_more_writes.trans hw, hp.thread_dump_written ▸ hb, ?_⟩
    have : dumper_items c [op] s = [] := by
      cases op <;> simp [dumper_items, h] <;> exact absurd ⟨_, rfl⟩ hd
    rw [this, hp.thread_dump_written]
    rfl

theorem dumper_items_cons {c : Codec} {s s1 : Process} {op : Op} (rest : List Op)
    (h : Op.step c s op = some s1) :
    dumper_items c (op :: rest) s = dumper_items c [op] s ++ dumper_items c rest s1 := by
  simp [dumper_items, h]

/-- C7 (amended). While `no_more_writes` is not set, after any run of operations
without `finalize_tracing`, `thread_dump_written` has grown, modulo `2 ^ 64`, by the
sum of the `size` fields of the BUFFER-CHUNK headers that the dump passes of the run
appended to the sink. -/
theorem chunk_accounting (c : Codec) (ops : List Op) (s s' : Process)
    (hw : s.g.no_more_writes = false) (hb : s.g.thread_dump_written < U64)
    (hf : Op.finalize_tracing ∉ ops) (h : run c ops s = some s') :
    s'.g.thread_dump_written =
      (s.g.thread_dump_written + header_sizes (dumper_items c ops s)) % U64 := by
  suffices hgoal : s'.g.thread_dump_written < U64 ∧ s'.g.thread_dump_written % U64 =
      (s.g.thread_dump_written + header_sizes (dumper_items c ops s)) % U64 by
    rw [← hgoal.2, Nat.mod_eq_of_lt hgoal.1]
  induction ops generalizing s with
  | nil =>
    simp only [run, Option.some.injEq] at h
    subst h
    exact ⟨hb, by simp [dumper_items, header_sizes]⟩
  | cons op rest ih =>
    simp only [run, Option.bind_eq_some] at h
    obtain ⟨s1, h1, h2⟩ := h
    simp only [List.mem_cons, not_or] at hf
    obtain ⟨e1, e2, e3⟩ := step_accounting h1 (fun e => hf.1 e.symm) hw hb
    obtain ⟨r1, r2⟩ := ih s1 e1 e2 hf.2 h2
    refine ⟨r1, ?_⟩
    rw [dumper_items_cons rest h1, header_sizes_append, r2]
    unfold U64 at *
    omega

/-! ## Token refresh -/

theorem readAt_writeAt_self (buf bs : List Nat) (p : Nat) (hp : p ≤ buf.length) :
    readAt (writeAt buf p bs) p bs.length = bs := by
  have h := readAt_writeAt_extend buf bs p p (Nat.le_refl p) hp
  simpa [readAt] using h

/-- The fields of the tracer after `AppendWords`, and the bytes it stored. -/
theorem AppendWords_fields (c : Codec) (g : Globals) (t : MallocTracer) (words : List Nat)
    (hwf : t.buf_end ≤ t.buf_storage.length) :
    (MallocTracer.AppendWords c g t words).1.token_counter = g.token_counter ∧
      (MallocTracer.AppendWords c g t words).2.token_base = t.token_base ∧
      (MallocTracer.AppendWords c g t words).2.counter = t.counter ∧
      (MallocTracer.AppendWords c g t words).2.last_appended
          (words.map c.encode_unsigned).flatten.length =
        (words.map c.encode_unsigned).flatten := by
  by_cases h : t.buf_ptr > t.buf_end
  · simp only [MallocTracer.AppendWords, h, if_true, MallocTracer.AppendBytes,
      MallocTracer.last_appended, Nat.add_sub_cancel]
    refine ⟨?_, ?_, ?_, ?_⟩
    · simp only [MallocTracer.RefreshBuffer]
      split <;> simp [MallocTracer.RefreshBufferInnerLocked, append_buf_locked,
        MallocTracer.UpdateTSAndCPU, get_nanos, sched_getcpu] <;> split <;> simp
    · simp only [MallocTracer.RefreshBuffer]
      split <;> rfl
    · simp only [MallocTracer.RefreshBuffer]
      split <;> rfl
    · apply readAt_writeAt_self
      simp only [MallocTracer.RefreshBuffer]
      split <;> simp
  · simp only [MallocTracer.AppendWords, h, if_false, MallocTracer.AppendBytes,
      MallocTracer.last_appended, Nat.add_sub_cancel, true_and]
    apply readAt_writeAt_self
    omega

/-- What `RefreshTokenAndDec` leaves: the new `token_counter`, the tracer's block
end and counter, and the event it stored, which carries the old `token_counter`. -/
theorem RefreshTokenAndDec_fields (c : Codec) (g : Globals) (t : MallocTracer)
    (hwf : t.buf_end ≤ t.buf_storage.length) :
    (MallocTracer.RefreshTokenAndDec c g t).1.token_counter =
        (g.token_counter + kTokenSize) % U64 ∧
      (MallocTracer.RefreshTokenAndDec c g t).2.token_base =
        (g.token_counter + kTokenSize) % U64 ∧
      (MallocTracer.RefreshTokenAndDec c g t).2.counter = kTokenSize ∧
      (MallocTracer.RefreshTokenAndDec c g t).2.emitted_token_refresh c
        (sub64 ((g.token_counter + kTokenSize) % U64) kTokenSize) := by
  simp only [MallocTracer.RefreshTokenAndDec]
  generalize (g.token_counter + kTokenSize) % U64 = base
  have h := AppendWords_fields c
    (MallocTracer.UpdateTSAndCPU c { g with token_counter := base }
      { t with token_base := base, counter := kTokenSize }).2.1
    (MallocTracer.UpdateTSAndCPU c { g with token_counter := base }
      { t with token_base := base, counter := kTokenSize }).2.2
    [(c.encode_token (sub64 base kTokenSize)
        (MallocTracer.UpdateTSAndCPU c { g with token_counter := base }
          { t with token_base := base, counter := kTokenSize }).1).1,
     (c.encode_token (sub64 base kTokenSize)
        (MallocTracer.UpdateTSAndCPU c { g with token_counter := base }
          { t with token_base := base, counter := kTokenSize }).1).2] hwf
  have h4 := h.2.2.2
  simp only [List.map_cons, List.map_nil, List.flatten_cons, List.flatten_nil,
    List.append_nil] at h4
  exact ⟨h.1, h.2.1, h.2.2.1, _, h4⟩

theorem sub64_add (a : Nat) (h : a + kTokenSize < U64) :
    sub64 ((a + kTokenSize) % U64) kTokenSize = a := by
  unfold sub64 kTokenSize U64 at *
  omega

theorem length_refresh_run (c : Codec) (calls : List (Globals × MallocTracer)) :
    ∀ counter, (refresh_run c counter calls).length = calls.length := by
  induction calls with
  | nil => intro _; rfl
  | cons x rest ih => intro counter; simp [refresh_run, ih]

/-- The `i`-th refresh of a run that starts with `token_counter = 1024 * k`. -/
theorem refresh_run_get (c : Codec) (calls : List (Globals × MallocTracer)) :
    ∀ (k i : Nat) (r : Globals × MallocTracer),
      (∀ x ∈ calls, x.2.buf_end ≤ x.2.buf_storage.length) →
      (refresh_run c (kTokenSize * k) calls)[i]? = some r →
      kTokenSize * (k + i + 1) < U64 →
      r.1.token_counter = kTokenSize * (k + i + 1) ∧
        r.2.token_base = kTokenSize * (k + i + 1) ∧
        r.2.counter = kTokenSize ∧
        r.2.emitted_token_refresh c (kTokenSize * (k + i)) := by
  induction calls with
  | nil => intro k i r _ h; simp [refresh_run] at h
  | cons x rest ih =>
    intro k i r hwf h hb
    obtain ⟨g, t⟩ := x
    have hf := RefreshTokenAndDec_fields c { g with token_counter := kTokenSize * k } t
      (hwf (g, t) (List.mem_cons_self _ _))
    have hmod : (kTokenSize * k + kTokenSize) % U64 = kTokenSize * (k + 1) := by
      unfold kTokenSize U64 at *
      omega
    simp only [hmod] at hf
    cases i with
    | zero =>
      simp only [refresh_run, List.getElem?_cons_zero, Option.some.injEq] at h
      subst h
      refine ⟨hf.1, hf.2.1, hf.2.2.1, ?_⟩
      have hs : sub64 (kTokenSize * (k + 1)) kTokenSize = kTokenSize * (k + 0) := by
        unfold sub64 kTokenSize U64 at *
        omega
      rw [← hs]
      exact hf.2.2.2
    | succ j =>
      simp only [refresh_run, List.getElem?_cons_succ] at h
      rw [hf.1] at h
      have := ih (k + 1) j r (fun y hy => hwf y (List.mem_cons_of_mem _ hy)) h
        (by rw [show k + 1 + j + 1 = k + (j + 1) + 1 by omega]; exact hb)
      rw [show k + 1 + j + 1 = k + (j + 1) + 1 by omega, show k + 1 + j = k + (j + 1) by omega]
        at this
      exact this

/-- C2. Starting from `token_counter = 0`, the `n`-th token refresh of the process,
whichever tracer performs it, stores a TOKEN-REFRESH event whose base is
`1024 * (n - 1)` and leaves `token_counter = 1024 * n`; the tracer then holds the block
`[1024 * (n - 1), 1024 * n)`, and the blocks of two different refreshes are disjoint. -/
theorem token_blocks_never_reused (c : Codec) (calls : List (Globals × MallocTracer))
    (hwf : ∀ x ∈ calls, x.2.buf_end ≤ x.2.buf_storage.length) (n : Nat) (h1 : 1 ≤ n)
    (hn : n ≤ calls.length) (hb : 1024 * n < U64) :
    ∃ r, (refresh_run c 0 calls)[n - 1]? = some r ∧
      r.2.emitted_token_refresh c (1024 * (n - 1)) ∧
      r.1.token_counter = 1024 * n ∧
      r.2.token_block = Finset.Ico (1024 * (n - 1)) (1024 * n) ∧
      ∀ m r', 1 ≤ m → m ≠ n → 1024 * m < U64 → (refresh_run c 0 calls)[m - 1]? = some r' →
        Disjoint r.2.token_block r'.2.token_block := by
  have key : ∀ m r', 1 ≤ m → 1024 * m < U64 → (refresh_run c 0 calls)[m - 1]? = some r' →
      r'.2.emitted_token_refresh c (1024 * (m - 1)) ∧ r'.1.token_counter = 1024 * m ∧
        r'.2.token_block = Finset.Ico (1024 * (m - 1)) (1024 * m) := by
    intro m r' hm hbm hr
    have h := refresh_run_get c calls 0 (m - 1) r' hwf hr
      (by rw [show 0 + (m - 1) + 1 = m by omega]; exact hbm)
    rw [show 0 + (m - 1) + 1 = m by omega, show 0 + (m - 1) = m - 1 by omega] at h
    refine ⟨h.2.2.2, h.1, ?_⟩
    unfold MallocTracer.token_block
    rw [h.2.1]
    unfold kTokenSize
    congr 1
    omega
  have hlen : n - 1 < (refresh_run c 0 calls).length := by
    rw [length_refresh_run]; omega
  refine ⟨(refresh_run c 0 calls)[n - 1], List.getElem?_eq_getElem hlen, ?_⟩
  obtain ⟨k1, k2, k3⟩ := key n _ h1 hb (List.getElem?_eq_getElem hlen)
  refine ⟨k1, k2, k3, ?_⟩
  intro m r' hm hne hbm hr
  obtain ⟨-, -, k3'⟩ := key m r' hm hbm hr
  rw [k3, k3']
  rw [Finset.disjoint_left]
  intro x hx hx'
  simp only [Finset.mem_Ico] at hx hx'
  omega

theorem emitted_of_counter (c : Codec) (t : MallocTracer) (base n : Nat)
    (h : t.emitted_token_refresh c base) :
    MallocTracer.emitted_token_refresh c { t with counter := n } base := h

/-- The state a token refresh leaves behind: `token_base` is the end of the block just
claimed, and the base carried by the TOKEN-REFRESH event is the old `token_counter`,
which is `token_base - counter` after `RefreshTokenAndDec` (where
`counter = kTokenSize`) and `token_base - (counter - 1)` after `RefreshToken` (where
`counter = kTokenSize + 1`). For a tracer constructed with `token_counter = 0` the
event carries base 0, `token_base = 1024` and `counter = 1025`. -/
theorem refresh_leaves_block_end (c : Codec) (g : Globals) (t : MallocTracer)
    (hwf : t.buf_end ≤ t.buf_storage.length) (hb : g.token_counter + kTokenSize < U64) :
    ((MallocTracer.RefreshTokenAndDec c g t).2.emitted_token_refresh c g.token_counter ∧
      (MallocTracer.RefreshTokenAndDec c g t).2.token_base = g.token_counter + kTokenSize ∧
      (MallocTracer.RefreshTokenAndDec c g t).2.counter = kTokenSize ∧
      sub64 (MallocTracer.RefreshTokenAndDec c g t).2.token_base
        (MallocTracer.RefreshTokenAndDec c g t).2.counter = g.token_counter) ∧
    ((MallocTracer.RefreshToken c g t).2.emitted_token_refresh c g.token_counter ∧
      (MallocTracer.RefreshToken c g t).2.token_base = g.token_counter + kTokenSize ∧
      (MallocTracer.RefreshToken c g t).2.counter = kTokenSize + 1 ∧
      sub64 (MallocTracer.RefreshToken c g t).2.token_base
        ((MallocTracer.RefreshToken c g t).2.counter - 1) = g.token_counter) ∧
    (g.token_counter = 0 → ∀ mem id,
      (MallocTracer.construct c g mem id).2.emitted_token_refresh c 0 ∧
      (MallocTracer.construct c g mem id).2.token_base = 1024 ∧
      (MallocTracer.construct c g mem id).2.counter = 1025) := by
  have hmod : (g.token_counter + kTokenSize) % U64 = g.token_counter + kTokenSize :=
    Nat.mod_eq_of_lt hb
  have key : ∀ t' : MallocTracer, t'.buf_end ≤ t'.buf_storage.length →
      (MallocTracer.RefreshTokenAndDec c g t').2.emitted_token_refresh c g.token_counter ∧
      (MallocTracer.RefreshTokenAndDec c g t').2.token_base = g.token_counter + kTokenSize ∧
      (MallocTracer.RefreshTokenAndDec c g t').2.counter = kTokenSize := by
    intro t' hwf'
    obtain ⟨-, f2, f3, f4⟩ := RefreshTokenAndDec_fields c g t' hwf'
    rw [sub64_add _ hb] at f4
    rw [hmod] at f2
    exact ⟨f4, f2, f3⟩
  obtain ⟨f4, f2, f3⟩ := key t hwf
  refine ⟨⟨f4, f2, f3, ?_⟩, ⟨?_, ?_, ?_, ?_⟩, ?_⟩
  · rw [f2, f3]
    unfold sub64 kTokenSize U64 at *
    omega
  · exact emitted_of_counter c _ _ _ f4
  · exact f2
  · show (MallocTracer.RefreshTokenAndDec c g t).2.counter + 1 = kTokenSize + 1
    rw [f3]
  · show sub64 (MallocTracer.RefreshTokenAndDec c g t).2.token_base
      ((MallocTracer.RefreshTokenAndDec c g t).2.counter + 1 - 1) = g.token_counter
    rw [f2, f3]
    unfold sub64 kTokenSize U64 at *
    omega
  · intro h0 mem id
    obtain ⟨g4, g2, g3⟩ := key
      { mem with
        buf_ptr := 0
        buf_end := mem.buf_storage.length - c.kMaxSize
        thread_id := id
        token_base := 0
        counter := 0
        prev_size := 0
        prev_token := 0
        last_cpu := -1
        signal_snapshot_buf_ptr := 0
        signal_saved_buf_ptr := 0
        destroy_count := 0 } (Nat.sub_le _ _)
    rw [h0] at g4 g2
    refine ⟨emitted_of_counter c _ _ _ g4, ?_, ?_⟩
    · exact g2
    · show (MallocTracer.RefreshTokenAndDec c g _).2.counter + 1 = 1025
      rw [g3]
      rfl

/-! ## Cursors -/

/-- Over one operation: `signal_saved_buf_ptr` stays at or below the other two
cursors, and `signal_snapshot_buf_ptr` stays at or below `buf_ptr` unless the
operation is `RefreshBuffer`. -/
theorem step_cursors (c : Codec) (st : Globals × MallocTracer) (op : TracerOp)
    (h1 : st.2.signal_saved_buf_ptr ≤ st.2.signal_snapshot_buf_ptr)
    (h2 : st.2.signal_saved_buf_ptr ≤ st.2.buf_ptr) :
    ((TracerOp.step c st op).2.signal_saved_buf_ptr ≤
        (TracerOp.step c st op).2.signal_snapshot_buf_ptr ∧
      (TracerOp.step c st op).2.signal_saved_buf_ptr ≤ (TracerOp.step c st op).2.buf_ptr) ∧
    (op ≠ .refresh_buffer → st.2.signal_snapshot_buf_ptr ≤ st.2.buf_ptr →
      (TracerOp.step c st op).2.signal_snapshot_buf_ptr ≤ (TracerOp.step c st op).2.buf_ptr) := by
  cases op with
  | append bytes =>
    simp only [TracerOp.step, MallocTracer.AppendBytes]
    exact ⟨⟨h1, by omega⟩, fun _ h => by omega⟩
  | dump_pass =>
    simp only [TracerOp.step, MallocTracer.dump_pass, MallocTracer.DumpFromSaverThread]
    split
    · rename_i he
      simp only at he ⊢
      exact ⟨⟨by omega, h2⟩, fun _ _ => Nat.le_refl _⟩
    · split
      · exact ⟨⟨h2, h2⟩, fun _ _ => Nat.le_refl _⟩
      · exact ⟨⟨Nat.le_refl _, Nat.le_refl _⟩, fun _ _ => Nat.le_refl _⟩
  | refresh_buffer =>
    refine ⟨?_, fun h => absurd rfl h⟩
    simp only [TracerOp.step, MallocTracer.RefreshBuffer]
    split <;> exact ⟨Nat.zero_le _, Nat.le_refl _⟩

theorem cursor_step (c : Codec) (st : Globals × MallocTracer) (op : CursorOp)
    (h1 : st.2.signal_saved_buf_ptr ≤ st.2.signal_snapshot_buf_ptr)
    (h2 : st.2.signal_saved_buf_ptr ≤ st.2.buf_ptr) :
    ((CursorOp.step c st op).2.signal_saved_buf_ptr ≤
        (CursorOp.step c st op).2.signal_snapshot_buf_ptr ∧
      (CursorOp.step c st op).2.signal_saved_buf_ptr ≤ (CursorOp.step c st op).2.buf_ptr) ∧
    (op.flushes st = false → st.2.signal_snapshot_buf_ptr ≤ st.2.buf_ptr →
      (CursorOp.step c st op).2.signal_snapshot_buf_ptr ≤ (CursorOp.step c st op).2.buf_ptr) := by
  cases op with
  | append_words words =>
    by_cases hf : st.2.buf_ptr > st.2.buf_end
    · have e : (MallocTracer.RefreshBuffer c st.1 st.2).2.signal_saved_buf_ptr = 0 := by
        unfold MallocTracer.RefreshBuffer
        split <;> rfl
      simp only [CursorOp.step, MallocTracer.AppendWords, hf, if_true,
        MallocTracer.AppendBytes, e, CursorOp.flushes, decide_True]
      exact ⟨⟨Nat.zero_le _, Nat.zero_le _⟩, fun h => by simp at h⟩
    · simp only [CursorOp.step, MallocTracer.AppendWords, hf, if_false,
        MallocTracer.AppendBytes]
      exact ⟨⟨h1, by omega⟩, fun _ h => by omega⟩
  | dump_pass =>
    obtain ⟨a, b⟩ := step_cursors c st .dump_pass h1 h2
    exact ⟨a, fun _ h => b (by simp) h⟩
  | refresh_buffer =>
    obtain ⟨a, -⟩ := step_cursors c st .refresh_buffer h1 h2
    exact ⟨a, fun h => by simp [CursorOp.flushes] at h⟩

/-- C9 (amended). After construction the cursors satisfy
`signal_saved_buf_ptr ≤ signal_snapshot_buf_ptr ≤ buf_ptr`. Producer appends
(`AppendWords`, which flushes first when it finds `buf_ptr > buf_end`), dump passes and
`RefreshBuffer`, in any order, preserve `signal_saved_buf_ptr ≤
signal_snapshot_buf_ptr` and `signal_saved_buf_ptr ≤ buf_ptr`, and as long as no
operation flushes (no `RefreshBuffer` call, no append that finds `buf_ptr > buf_end`)
they also preserve `signal_snapshot_buf_ptr ≤ buf_ptr`; the same holds for runs of the
bare copy step of an append. A flush resets `buf_ptr` and `signal_saved_buf_ptr` and
leaves `signal_snapshot_buf_ptr` as it was: `RefreshBuffer` leaves `buf_ptr` at the
start of the buffer, an append that flushes leaves it just past the bytes of its event.
A dump pass leaves `signal_snapshot_buf_ptr = buf_ptr`. -/
theorem cursor_invariant (c : Codec) (g : Globals) (t : MallocTracer) (ops : List TracerOp)
    (h1 : t.signal_saved_buf_ptr ≤ t.signal_snapshot_buf_ptr)
    (h2 : t.signal_saved_buf_ptr ≤ t.buf_ptr) :
    (∀ cops : List CursorOp,
      ((run_cursors c cops (g, t)).2.signal_saved_buf_ptr ≤
          (run_cursors c cops (g, t)).2.signal_snapshot_buf_ptr ∧
        (run_cursors c cops (g, t)).2.signal_saved_buf_ptr ≤
          (run_cursors c cops (g, t)).2.buf_ptr) ∧
      (no_flush c cops (g, t) = true → t.signal_snapshot_buf_ptr ≤ t.buf_ptr →
        (run_cursors c cops (g, t)).2.signal_snapshot_buf_ptr ≤
          (run_cursors c cops (g, t)).2.buf_ptr)) ∧
    ((run_tracer c ops (g, t)).2.signal_saved_buf_ptr ≤
        (run_tracer c ops (g, t)).2.signal_snapshot_buf_ptr ∧
      (run_tracer c ops (g, t)).2.signal_saved_buf_ptr ≤ (run_tracer c ops (g, t)).2.buf_ptr) ∧
    (TracerOp.refresh_buffer ∉ ops → t.signal_snapshot_buf_ptr ≤ t.buf_ptr →
      (run_tracer c ops (g, t)).2.signal_snapshot_buf_ptr ≤
        (run_tracer c ops (g, t)).2.buf_ptr) ∧
    ((MallocTracer.RefreshBuffer c g t).2.buf_ptr = 0 ∧
      (MallocTracer.RefreshBuffer c g t).2.signal_saved_buf_ptr = 0 ∧
      (MallocTracer.RefreshBuffer c g t).2.signal_snapshot_buf_ptr =
        t.signal_snapshot_buf_ptr) ∧
    (∀ words, t.buf_ptr > t.buf_end →
      (MallocTracer.AppendWords c g t words).2.buf_ptr =
        (words.map c.encode_unsigned).flatten.length ∧
      (MallocTracer.AppendWords c g t words).2.signal_saved_buf_ptr = 0 ∧
      (MallocTracer.AppendWords c g t words).2.signal_snapshot_buf_ptr =
        t.signal_snapshot_buf_ptr) ∧
    (MallocTracer.dump_pass c g t).2.signal_snapshot_buf_ptr =
      (MallocTracer.dump_pass c g t).2.buf_ptr ∧
    ∀ mem id,
      (MallocTracer.construct c g mem id).2.signal_saved_buf_ptr ≤
        (MallocTracer.construct c g mem id).2.signal_snapshot_buf_ptr ∧
      (MallocTracer.construct c g mem id).2.signal_snapshot_buf_ptr ≤
        (MallocTracer.construct c g mem id).2.buf_ptr := by
  have hr : (MallocTracer.RefreshBuffer c g t).2.buf_ptr = 0 ∧
      (MallocTracer.RefreshBuffer c g t).2.signal_saved_buf_ptr = 0 ∧
      (MallocTracer.RefreshBuffer c g t).2.signal_snapshot_buf_ptr =
        t.signal_snapshot_buf_ptr := by
    unfold MallocTracer.RefreshBuffer
    split <;> exact ⟨rfl, rfl, rfl⟩
  refine ⟨?_, ?_, ?_, hr, ?_, ?_, ?_⟩
  · intro cops
    suffices hgen : ∀ st : Globals × MallocTracer,
        st.2.signal_saved_buf_ptr ≤ st.2.signal_snapshot_buf_ptr →
        st.2.signal_saved_buf_ptr ≤ st.2.buf_ptr →
        ((run_cursors c cops st).2.signal_saved_buf_ptr ≤
            (run_cursors c cops st).2.signal_snapshot_buf_ptr ∧
          (run_cursors c cops st).2.signal_saved_buf_ptr ≤
            (run_cursors c cops st).2.buf_ptr) ∧
        (no_flush c cops st = true → st.2.signal_snapshot_buf_ptr ≤ st.2.buf_ptr →
          (run_cursors c cops st).2.signal_snapshot_buf_ptr ≤
            (run_cursors c cops st).2.buf_ptr) from
      hgen (g, t) h1 h2
    induction cops with
    | nil => intro st a b; exact ⟨⟨a, b⟩, fun _ h => h⟩
    | cons op rest ih =>
      intro st a b
      obtain ⟨⟨a', b'⟩, k⟩ := cursor_step c st op a b
      obtain ⟨r1, r2⟩ := ih (CursorOp.step c st op) a' b'
      refine ⟨r1, fun hn h => ?_⟩
      simp only [no_flush, Bool.and_eq_true, Bool.not_eq_true'] at hn
      exact r2 hn.2 (k hn.1 h)
  · suffices hgen : ∀ st : Globals × MallocTracer,
        st.2.signal_saved_buf_ptr ≤ st.2.signal_snapshot_buf_ptr →
        st.2.signal_saved_buf_ptr ≤ st.2.buf_ptr →
        (run_tracer c ops st).2.signal_saved_buf_ptr ≤
            (run_tracer c ops st).2.signal_snapshot_buf_ptr ∧
          (run_tracer c ops st).2.signal_saved_buf_ptr ≤ (run_tracer c ops st).2.buf_ptr from
      hgen (g, t) h1 h2
    induction ops with
    | nil => intro st a b; exact ⟨a, b⟩
    | cons op rest ih =>
      intro st a b
      obtain ⟨⟨a', b'⟩, -⟩ := step_cursors c st op a b
      exact ih (TracerOp.step c st op) a' b'
  · suffices hgen : ∀ st : Globals × MallocTracer,
        st.2.signal_saved_buf_ptr ≤ st.2.signal_snapshot_buf_ptr →
        st.2.signal_saved_buf_ptr ≤ st.2.buf_ptr →
        TracerOp.refresh_buffer ∉ ops → st.2.signal_snapshot_buf_ptr ≤ st.2.buf_ptr →
        (run_tracer c ops st).2.signal_snapshot_buf_ptr ≤ (run_tracer c ops st).2.buf_ptr from
      hgen (g, t) h1 h2
    induction ops with
    | nil => intro st _ _ _ h; exact h
    | cons op rest ih =>
      intro st a b hn h
      simp only [List.mem_cons, not_or] at hn
      obtain ⟨⟨a', b'⟩, h'⟩ := step_cursors c st op a b
      exact ih (TracerOp.step c st op) a' b' hn.2 (h' (fun e => hn.1 e.symm) h)
  · intro words hf
    simp only [MallocTracer.AppendWords, hf, if_true, MallocTracer.AppendBytes, hr.1, hr.2.1,
      hr.2.2, Nat.zero_add, and_self]
  · by_cases e : t.buf_ptr = t.signal_saved_buf_ptr
    · simp only [MallocTracer.dump_pass, e, if_true]
    · simp only [MallocTracer.dump_pass, e, if_false, MallocTracer.DumpFromSaverThread]
      split <;> rfl
  · intro mem id
    simp only [MallocTracer.construct, MallocTracer.RefreshToken,
      MallocTracer.RefreshTokenAndDec, MallocTracer.AppendWords, MallocTracer.UpdateTSAndCPU,
      Nat.not_lt_zero, gt_iff_lt, if_false, MallocTracer.AppendBytes]
    exact ⟨Nat.le_refl _, Nat.zero_le _⟩

/-! ## The TLS destructor -/

theorem upd_upd {α β : Type} [DecidableEq α] (f : α → β) (k : α) (v w : β) :
    upd (upd f k v) k w = upd f k w := by
  funext x
  by_cases h : x = k <;> simp [upd, h]

theorem destructor_early (c : Codec) (th : Nat) (s : Process) (tp : TracerPtr)
    (hh : s.had_tracer th = false) (hp : (s.instance_ th).ptr = some tp)
    (hk : (s.tracers tp).destroy_count < 3) :
    MallocTracerDestructor c th s =
      some (after_early_calls s th tp ((s.tracers tp).destroy_count + 1)) := by
  simp [MallocTracerDestructor, hh, hp, hk, after_early_calls]

theorem destructor_early_again (c : Codec) (th : Nat) (s : Process) (tp : TracerPtr)
    (hh : s.had_tracer th = false) (hp : (s.instance_ th).ptr = some tp) (k : Nat)
    (hk : k < 3) :
    MallocTracerDestructor c th (after_early_calls s th tp k) =
      some (after_early_calls s th tp (k + 1)) := by
  rw [destructor_early c th (after_early_calls s th tp k) tp hh hp
    (by simpa [after_early_calls] using hk)]
  simp [after_early_calls, upd_upd]

theorem poisoned_RefreshBuffer (c : Codec) (g : Globals) (t : MallocTracer) :
    (MallocTracer.destruct c g t).2 = MallocTracer.poisoned t := by
  simp only [MallocTracer.destruct, MallocTracer.poisoned, MallocTracer.UpdateTSAndCPU,
    MallocTracer.RefreshBuffer]
  split <;> rfl

/-- The fourth call, on the state the first three leave, when no link it has to
follow is poisoned. -/
theorem destructor_fourth (c : Codec) (th : Nat) (s : Process) (tp : TracerPtr)
    (hh : s.had_tracer th = false) (hp : (s.instance_ th).ptr = some tp)
    (hpp : (s.instance_ th).pprev ≠ .garbage)
    (hnx : (s.instance_ th).pprev = .null ∨ (s.instance_ th).next ≠ .garbage) :
    ∃ s4, MallocTracerDestructor c th (after_early_calls s th tp 3) = some s4 ∧
      (s4.instance_ th).ptr = none ∧ s4.had_tracer th = true ∧
      ((s.instance_ th).pprev ≠ .null →
        (s4.instance_ th).pprev = .garbage ∧ (s4.instance_ th).next = .garbage) ∧
      ((s.instance_ th).pprev = .head → s4.all_tracers = (s.instance_ th).next) ∧
      (∀ m, m ≠ th → (s.instance_ th).pprev = .next_of m →
        (s4.instance_ m).next = (s.instance_ th).next) ∧
      ((s.instance_ th).pprev ≠ .null → ∀ n, n ≠ th → (s.instance_ th).next = .node n →
        (s4.instance_ n).pprev = (s.instance_ th).pprev) ∧
      s4.g = (MallocTracer.destruct c s.g { (s.tracers tp) with destroy_count := 4 }).1 ∧
      s4.tracers tp = MallocTracer.poisoned (s.tracers tp) ∧
      (tp = .first → s4.allocator = s.allocator) ∧
      (∀ slot, tp = .slab slot → s4.allocator = s.allocator.Delete slot) := by
  rcases hpv : (s.instance_ th).pprev with _ | _ | m | _
  · cases tp <;>
      simp [MallocTracerDestructor, after_early_calls, destructor_unlink, hh, hp, hpv,
        poisoned_RefreshBuffer, MallocTracer.poisoned]
  · rcases hnv : (s.instance_ th).next with _ | n | _
    · cases tp <;>
        simp [MallocTracerDestructor, after_early_calls, destructor_unlink, store_through,
          set_pprev_if, hh, hp, hpv, hnv, poisoned_RefreshBuffer, MallocTracer.poisoned]
    · cases tp <;>
        simp [MallocTracerDestructor, after_early_calls, destructor_unlink,
          store_through, set_pprev_if, hh, hp, hpv, hnv, poisoned_RefreshBuffer,
          MallocTracer.poisoned] <;>
        (intro x hx hxn; subst hxn; simp [upd, hx])
    · rw [hpv] at hnx
      simp [hnv] at hnx
  · rcases hnv : (s.instance_ th).next with _ | n | _
    · cases tp <;>
        simp [MallocTracerDestructor, after_early_calls, destructor_unlink,
          store_through, set_pprev_if, hh, hp, hpv, hnv, poisoned_RefreshBuffer,
          MallocTracer.poisoned] <;>
        (intro x hx hxm; subst hxm; simp [upd, hx])
    · cases tp <;>
        simp [MallocTracerDestructor, after_early_calls, destructor_unlink,
          store_through, set_pprev_if, hh, hp, hpv, hnv, poisoned_RefreshBuffer,
          MallocTracer.poisoned] <;>
        (refine ⟨fun x hx hxm => ?_, fun x hx hxn => ?_⟩
         · subst hxm
           by_cases hmn : m = n
           · subst hmn
             simp [upd, hx]
           · simp [upd, hx, hmn]
         · subst hxn
           simp [upd, hx])
    · rw [hpv] at hnx
      simp [hnv] at hnx
  · exact absurd hpv hpp

/-- The fourth call crashes when it has to store through a poisoned link. -/
theorem destructor_fourth_crash (c : Codec) (th : Nat) (s : Process) (tp : TracerPtr)
    (hh : s.had_tracer th = false) (hp : (s.instance_ th).ptr = some tp)
    (hbad : (s.instance_ th).pprev = .garbage ∨
      ((s.instance_ th).pprev ≠ .null ∧ (s.instance_ th).next = .garbage)) :
    MallocTracerDestructor c th (after_early_calls s th tp 3) = none := by
  rcases hpv : (s.instance_ th).pprev with _ | _ | m | _
  · rw [hpv] at hbad
    simp at hbad
  · rw [hpv] at hbad
    simp only [reduceCtorEq, ne_eq, not_false_eq_true, true_and, false_or] at hbad
    simp [MallocTracerDestructor, after_early_calls, destructor_unlink, store_through,
      set_pprev_if, hh, hp, hpv, hbad]
  · rw [hpv] at hbad
    simp only [reduceCtorEq, ne_eq, not_false_eq_true, true_and, false_or] at hbad
    simp [MallocTracerDestructor, after_early_calls, destructor_unlink, store_through,
      set_pprev_if, hh, hp, hpv, hbad]
  · simp [MallocTracerDestructor, after_early_calls, destructor_unlink, store_through,
      hh, hp, hpv]

/-- C5. For a tracer with `destroy_count_ = 0`, each of the first three calls of
`MallocTracerDestructor` only increments `destroy_count_` and sets the thread's TLS value
again: the registry, the globals with the sink, the slab, the thread's `Storage` and
the tracer's buffer and cursors are as before. The fourth call is the first to tear
down. It completes unless it has to store through a poisoned link, and then it has
cleared `instance_.ptr`, set `had_tracer`, unlinked the node when it was linked (the
slot `pprev` points to takes `next`, the successor takes `pprev`, the node's own links
are poisoned), run the tracer's destructor (flush, DEATH record, poison) and returned
the slot to the slab unless the tracer is the first one. -/
theorem tls_destructor_reentry (c : Codec) (th : Nat) (s : Process) (tp : TracerPtr)
    (hh : s.had_tracer th = false) (hp : (s.instance_ th).ptr = some tp)
    (hd : (s.tracers tp).destroy_count = 0) :
    (∀ k, 1 ≤ k → k ≤ 3 →
      destructor_calls c th k s = some (after_early_calls s th tp k)) ∧
    ((destructor_calls c th 4 s).isSome = true ↔
      ((s.instance_ th).pprev ≠ .garbage ∧
        ((s.instance_ th).pprev = .null ∨ (s.instance_ th).next ≠ .garbage))) ∧
    ∀ s4, destructor_calls c th 4 s = some s4 →
      (s4.instance_ th).ptr = none ∧ s4.had_tracer th = true ∧
      ((s.instance_ th).pprev ≠ .null →
        (s4.instance_ th).pprev = .garbage ∧ (s4.instance_ th).next = .garbage) ∧
      ((s.instance_ th).pprev = .head → s4.all_tracers = (s.instance_ th).next) ∧
      (∀ m, m ≠ th → (s.instance_ th).pprev = .next_of m →
        (s4.instance_ m).next = (s.instance_ th).next) ∧
      ((s.instance_ th).pprev ≠ .null → ∀ n, n ≠ th → (s.instance_ th).next = .node n →
        (s4.instance_ n).pprev = (s.instance_ th).pprev) ∧
      s4.g = (MallocTracer.destruct c s.g { (s.tracers tp) with destroy_count := 4 }).1 ∧
      s4.tracers tp = MallocTracer.poisoned (s.tracers tp) ∧
      (tp = .first → s4.allocator = s.allocator) ∧
      (∀ slot, tp = .slab slot → s4.allocator = s.allocator.Delete slot) := by
  have c1 : destructor_calls c th 1 s = some (after_early_calls s th tp 1) := by
    have h := destructor_early c th s tp hh hp (by omega)
    rw [hd] at h
    simpa [destructor_calls] using h
  have c2 : destructor_calls c th 2 s = some (after_early_calls s th tp 2) := by
    have h := destructor_early_again c th s tp hh hp 1 (by omega)
    simp only [destructor_calls] at c1 ⊢
    simpa [c1] using h
  have c3 : destructor_calls c th 3 s = some (after_early_calls s th tp 3) := by
    have h := destructor_early_again c th s tp hh hp 2 (by omega)
    rw [destructor_calls, c2]
    simpa using h
  have c4 : destructor_calls c th 4 s =
      MallocTracerDestructor c th (after_early_calls s th tp 3) := by
    rw [destructor_calls, c3]
    rfl
  by_cases hgood : (s.instance_ th).pprev ≠ .garbage ∧
      ((s.instance_ th).pprev = .null ∨ (s.instance_ th).next ≠ .garbage)
  · obtain ⟨s4, h4, rest⟩ := destructor_fourth c th s tp hh hp hgood.1 hgood.2
    refine ⟨?_, ?_, ?_⟩
    · intro k h1 h3
      have hk : k = 1 ∨ k = 2 ∨ k = 3 := by omega
      rcases hk with rfl | rfl | rfl
      · exact c1
      · exact c2
      · exact c3
    · rw [c4, h4]
      simp [hgood]
    · intro s4' h4'
      rw [c4, h4, Option.some.injEq] at h4'
      subst h4'
      exact rest
  · have hbad : (s.instance_ th).pprev = .garbage ∨
        ((s.instance_ th).pprev ≠ .null ∧ (s.instance_ th).next = .garbage) := by
      by_cases h1 : (s.instance_ th).pprev = .garbage
      · exact Or.inl h1
      · by_cases h2 : (s.instance_ th).pprev = .null
        · exact absurd ⟨h1, Or.inl h2⟩ hgood
        · by_cases h3 : (s.instance_ th).next = .garbage
          · exact Or.inr ⟨h2, h3⟩
          · exact absurd ⟨h1, Or.inr h3⟩ hgood
    have h4 := destructor_fourth_crash c th s tp hh hp hbad
    refine ⟨?_, ?_, ?_⟩
    · intro k h1 h3
      have hk : k = 1 ∨ k = 2 ∨ k = 3 := by omega
      rcases hk with rfl | rfl | rfl
      · exact c1
      · exact c2
      · exact c3
    · rw [c4, h4]
      simp only [Option.isSome_none, Bool.false_eq_true, false_iff]
      exact hgood
    · intro s4' h4'
      rw [c4, h4] at h4'
      exact absurd h4' (by simp)

/-! ## Getting a tracer again after destruction -/

theorem link_instance_spec (th : Nat) (tp : TracerPtr) (s : Process)
    (hg : s.all_tracers ≠ .garbage) (hself : s.all_tracers ≠ .node th) :
    ∃ s', link_instance th tp s = some s' ∧ s'.all_tracers = .node th ∧
      s'.instance_ th = { ptr := some tp, next := s.all_tracers, pprev := .head } ∧
      s'.g = s.g ∧ s'.tracers = s.tracers ∧ s'.had_tracer = s.had_tracer ∧
      s'.specific = s.specific := by
  rcases hat : s.all_tracers with _ | n | _
  · simp [link_instance, set_pprev_if, hat]
  · have hn : th ≠ n := fun e => hself (by rw [hat, e])
    simp [link_instance, set_pprev_if, hat, upd, hn]
  · exact absurd hat hg

theorem construct_thread_id_counter (c : Codec) (g : Globals) (mem : MallocTracer) (id : Nat) :
    (MallocTracer.construct c g mem id).1.thread_id_counter = g.thread_id_counter :=
  (quiet_construct c g mem id).thread_id_counter

/-- C8 (amended). When a thread whose tracer was already destroyed (`had_tracer` set)
goes through `GetInstanceSlow` again, it gets a fresh slab tracer with
`thread_id_ = 0`; `thread_id_counter` is not advanced and no TLS destructor is
registered for it, but its `Storage` node is linked at the head of the registry like
any other: `all_tracers_` points to it and its `next` is the old head. -/
theorem reentry_after_destruction (c : Codec) (th : Nat) (s : Process)
    (hh : s.had_tracer th = true) (hin : s.in_setup th = false)
    (hft : s.first_tracer_setup_once = true) (hst : s.setup_once = true)
    (hg : s.all_tracers ≠ .garbage) (hself : s.all_tracers ≠ .node th) :
    ∃ slot s', GetInstanceSlow c th s = some (.slab slot, s') ∧
      (s'.tracers (.slab slot)).thread_id = 0 ∧
      s'.g.thread_id_counter = s.g.thread_id_counter ∧
      s'.specific = s.specific ∧
      s'.all_tracers = .node th ∧
      s'.instance_ th = { ptr := some (.slab slot), next := s.all_tracers, pprev := .head } ∧
      ∀ fuel, reachable s' (fuel + 1) = th :: chain s' fuel s.all_tracers := by
  have h1 : once_SetupFirstTracer c s = s := by simp [once_SetupFirstTracer, hft]
  have h2 : once_DoSetupTLS th s = s := by simp [once_DoSetupTLS, hst]
  have h3 : draw_thread_id th s = (0, s) := by simp [draw_thread_id, hh]
  have h4 : (pick_instance c 0 s).1 = .slab s.allocator.New.1 := by simp [pick_instance]
  have h5 : ((pick_instance c 0 s).2.tracers (.slab s.allocator.New.1)).thread_id = 0 := by
    simp [pick_instance, construct_thread_id]
  have h6 : (pick_instance c 0 s).2.g.thread_id_counter = s.g.thread_id_counter := by
    simp [pick_instance, construct_thread_id_counter]
  have h7 : (pick_instance c 0 s).2.all_tracers = s.all_tracers := by simp [pick_instance]
  have h8 : (pick_instance c 0 s).2.had_tracer = s.had_tracer := by simp [pick_instance]
  have h9 : (pick_instance c 0 s).2.specific = s.specific := by simp [pick_instance]
  obtain ⟨s3, l1, l2, l3, l4, l5, l6, l7⟩ := link_instance_spec th (.slab s.allocator.New.1)
    (pick_instance c 0 s).2 (by rw [h7]; exact hg) (by rw [h7]; exact hself)
  have hres : GetInstanceSlow c th s = some (.slab s.allocator.New.1, s3) := by
    simp only [GetInstanceSlow, h1, hin, h2, h3, Bool.false_eq_true, if_false, h4, l1,
      Option.map_some', l6, h8, hh, Bool.not_true]
  refine ⟨_, s3, hres, ?_, ?_, ?_, l2, ?_, ?_⟩
  · rw [l5, h5]
  · rw [l4, h6]
  · rw [l7, h9]
  · rw [l3, h7]
  · intro fuel
    simp only [reachable, l2, chain, l3, h7]

/-! ## Concrete runs -/

/-- Witness of C1: the construction leaves two pending bytes, then the run of
`sample_ops`. -/
theorem per_thread_ordering_witness :
    sample_globals.no_more_writes = false ∧
    sample_tracer.signal_saved_buf_ptr ≤ sample_tracer.buf_ptr ∧
    sample_tracer.buf_ptr ≤ sample_tracer.buf_storage.length ∧
    appends_fit sample_codec sample_ops (sample_globals, sample_tracer) = true ∧
    ∃ d, (run_tracer sample_codec sample_ops (sample_globals, sample_tracer)).1.sink =
        sample_globals.sink ++ d ∧
      is_chunk_seq sample_tracer.thread_id d = true ∧
      payload d <+: sample_tracer.pending ++ appended sample_ops ∧
      payload d ++ (run_tracer sample_codec sample_ops (sample_globals, sample_tracer)).2.pending =
        sample_tracer.pending ++ appended sample_ops ∧
      (sample_ops.getLast? = some .refresh_buffer →
        payload d = sample_tracer.pending ++ appended sample_ops) :=
  ⟨by decide, by decide, by decide, by decide,
    per_thread_ordering sample_codec sample_globals sample_tracer sample_ops
      (by decide) (by decide) (by decide) (by decide)⟩

/-- Witness of C2: the second of two refreshes carries base 1024 and leaves
`token_counter = 2048`. -/
theorem token_blocks_never_reused_witness :
    (∀ x ∈ sample_calls, x.2.buf_end ≤ x.2.buf_storage.length) ∧ 1 ≤ 2 ∧
    2 ≤ sample_calls.length ∧ 1024 * 2 < U64 ∧
    ∃ r, (refresh_run sample_codec 0 sample_calls)[2 - 1]? = some r ∧
      r.2.emitted_token_refresh sample_codec (1024 * (2 - 1)) ∧
      r.1.token_counter = 1024 * 2 ∧
      r.2.token_block = Finset.Ico (1024 * (2 - 1)) (1024 * 2) ∧
      ∀ m r', 1 ≤ m → m ≠ 2 → 1024 * m < U64 →
        (refresh_run sample_codec 0 sample_calls)[m - 1]? = some r' →
        Disjoint r.2.token_block r'.2.token_block :=
  ⟨by decide, by decide, by decide, by decide,
    token_blocks_never_reused sample_codec sample_calls (by decide) 2 (by decide) (by decide)
      (by decide)⟩

/-- Counterexample to C4 as stated: the thread that draws `thread_id_counter = 1` is
handed the first tracer, whose `thread_id_` is 0, and when it exits both the chunk
header of its flush and its DEATH record carry thread id 0. -/
theorem bootstrap_thread_id_not_one :
    (GetInstanceSlow sample_codec 0 sample_process).map
        (fun r => (r.1, r.2.g.thread_id_counter, (r.2.tracers r.1).thread_id)) =
      some (.first, 1, 0) ∧
    (run sample_codec sample_life sample_process).map (fun s => s.g.sink) =
      some [.magic, .buffer_header 0 0 2, .raw [0, 0], .death 0 0] := by
  decide

/-- Witness of C4 (amended): thread 0 holds the live first tracer with pending bytes;
its flush writes a header with thread id 0 and its destructor ends with `death 0`. -/
theorem bootstrap_thread_id_is_zero_witness :
    ∃ s, run sample_codec sample_live (Process.init 64 [] []) = some s ∧
      (s.tracers .first).thread_id = 0 ∧
      (∀ tp, (s.tracers tp).thread_id ≠ 1) ∧
      (∃ ts, (MallocTracer.destruct sample_codec s.g (s.tracers .first)).1.sink.getLast? =
        some (.death 0 ts)) ∧
      ∃ ts, (MallocTracer.RefreshBuffer sample_codec s.g (s.tracers .first)).1.sink =
        s.g.sink ++ [.buffer_header 0 ts
            (ptr_diff (s.tracers .first).buf_ptr (s.tracers .first).signal_saved_buf_ptr),
          .raw (readAt (s.tracers .first).buf_storage (s.tracers .first).signal_saved_buf_ptr
            (ptr_diff (s.tracers .first).buf_ptr
              (s.tracers .first).signal_saved_buf_ptr))] := by
  have h : (run sample_codec sample_live (Process.init 64 [] [])).isSome = true := by decide
  obtain ⟨s, hs⟩ := Option.isSome_iff_exists.1 h
  have hf : (run sample_codec sample_live (Process.init 64 [] [])).map
      (fun s => ((s.tracers .first).thread_id, s.g.no_more_writes,
        decide ((s.tracers .first).buf_ptr ≠ (s.tracers .first).signal_saved_buf_ptr))) =
      some (0, false, true) := by decide
  rw [hs] at hf
  simp only [Option.map_some', Option.some.injEq, Prod.mk.injEq, decide_eq_true_eq] at hf
  obtain ⟨f1, f2, f3⟩ := hf
  obtain ⟨-, t2, -, -, t5⟩ := bootstrap_thread_id_is_zero sample_codec 64 [] [] sample_live s hs
  obtain ⟨-, -, -, -, -, -, t6⟩ := t5 (by rw [f1]; decide)
  obtain ⟨t7, t8, -⟩ := t6 f2
  exact ⟨s, hs, f1, t2, t7, t8 f3⟩

/-- Witness of C5: thread 0 with the first tracer. -/
theorem tls_destructor_reentry_witness :
    ∃ s, run sample_codec [.GetInstanceSlow 0] sample_process = some s ∧
      s.had_tracer 0 = false ∧ (s.instance_ 0).ptr = some .first ∧
      (s.tracers .first).destroy_count = 0 ∧
      (∀ k, 1 ≤ k → k ≤ 3 →
        destructor_calls sample_codec 0 k s = some (after_early_calls s 0 .first k)) ∧
      (destructor_calls sample_codec 0 4 s).isSome = true := by
  have h : (run sample_codec [.GetInstanceSlow 0] sample_process).map
      (fun s => (s.had_tracer 0, (s.instance_ 0).ptr, (s.tracers .first).destroy_count,
        (s.instance_ 0).pprev, (s.instance_ 0).next)) =
      some (false, some .first, 0, .head, .null) := by decide
  simp only [Option.map_eq_some', Prod.mk.injEq] at h
  obtain ⟨s, hs, h1, h2, h3, h4, h5⟩ := h
  have hthm := tls_destructor_reentry sample_codec 0 s .first h1 h2 h3
  refine ⟨s, hs, h1, h2, h3, hthm.1, hthm.2.1.2 ⟨?_, Or.inr ?_⟩⟩
  · rw [h4]; decide
  · rw [h5]; decide

/-- Witness of C6: after `sample_finalized`, the operations of `sample_late_ops`. -/
theorem no_more_writes_freezes_sink_witness :
    ∃ s s', run sample_codec sample_finalized sample_process = some s ∧
      run sample_codec sample_late_ops s = some s' ∧
      s.g.no_more_writes = true ∧ s.setup_once = true ∧
      Op.finalize_tracing ∉ sample_late_ops ∧
      s'.g.sink = s.g.sink ∧ s'.g.no_more_writes = true ∧
      (MallocTracer.destruct sample_codec s.g (s.tracers .first)).1.sink = s.g.sink := by
  have h : ((run sample_codec sample_finalized sample_process).bind fun s =>
      (run sample_codec sample_late_ops s).map fun _ => (s.g.no_more_writes, s.setup_once)) =
      some (true, true) := by decide
  simp only [Option.bind_eq_some, Option.map_eq_some', Prod.mk.injEq] at h
  obtain ⟨s, hs, s', hs', h1, h2⟩ := h
  have hthm := no_more_writes_freezes_sink sample_codec sample_late_ops s s' h1 (Or.inl h2)
    (by decide) hs'
  exact ⟨s, s', hs, hs', h1, h2, by decide, hthm.1.1, hthm.1.2, (hthm.2 (s.tracers .first)).2.2⟩

/-- Counterexample to C7 as stated: a dump pass after `finalize_tracing` adds the two
pending bytes to `thread_dump_written` although it appends no chunk to the sink. -/
theorem accounting_after_finalize :
    (run sample_codec [.GetInstanceSlow 0, .finalize_tracing, .DumpEverything 4]
        sample_process).map
      (fun s => (s.g.thread_dump_written, header_sizes s.g.sink, s.g.sink)) =
      some (2, 0, [.magic, .end_marker]) := by
  decide

/-- Witness of C7 (amended), on `sample_busy`. -/
theorem chunk_accounting_witness :
    ∃ s', run sample_codec sample_busy sample_process = some s' ∧
      sample_process.g.no_more_writes = false ∧ sample_process.g.thread_dump_written < U64 ∧
      Op.finalize_tracing ∉ sample_busy ∧
      s'.g.thread_dump_written =
        (sample_process.g.thread_dump_written +
          header_sizes (dumper_items sample_codec sample_busy sample_process)) % U64 := by
  have h : (run sample_codec sample_busy sample_process).isSome = true := by decide
  obtain ⟨s', hs'⟩ := Option.isSome_iff_exists.1 h
  exact ⟨s', hs', by decide, by decide, by decide,
    chunk_accounting sample_codec sample_busy sample_process s' (by decide) (by decide)
      (by decide) hs'⟩

/-- Counterexample to C8 as stated: thread 0 exits and then goes through
`GetInstanceSlow` again. Before the call the registry is empty; after it,
`all_tracers_` points to the node of thread 0, whose new tracer has thread id 0. -/
theorem reentry_is_linked :
    (run sample_codec sample_life sample_process).map
        (fun s => (s.had_tracer 0, s.all_tracers, reachable s 4)) =
      some (true, .null, []) ∧
    ((run sample_codec sample_life sample_process).bind
        (GetInstanceSlow sample_codec 0)).map
        (fun r => ((r.2.tracers r.1).thread_id, r.2.all_tracers, reachable r.2 4)) =
      some (0, .node 0, [0]) := by
  decide

/-- Witness of C8 (amended), on the same run. -/
theorem reentry_after_destruction_witness :
    ∃ s, run sample_codec sample_life sample_process = some s ∧
      s.had_tracer 0 = true ∧ s.in_setup 0 = false ∧ s.first_tracer_setup_once = true ∧
      s.setup_once = true ∧ s.all_tracers ≠ .garbage ∧ s.all_tracers ≠ .node 0 ∧
      ∃ slot s', GetInstanceSlow sample_codec 0 s = some (.slab slot, s') ∧
        (s'.tracers (.slab slot)).thread_id = 0 ∧
        s'.g.thread_id_counter = s.g.thread_id_counter ∧
        s'.specific = s.specific ∧
        s'.all_tracers = .node 0 ∧
        s'.instance_ 0 = { ptr := some (.slab slot), next := s.all_tracers, pprev := .head } ∧
        ∀ fuel, reachable s' (fuel + 1) = 0 :: chain s' fuel s.all_tracers := by
  have h : (run sample_codec sample_life sample_process).map
      (fun s => (s.had_tracer 0, s.in_setup 0, s.first_tracer_setup_once, s.setup_once,
        s.all_tracers)) = some (true, false, true, true, .null) := by decide
  simp only [Option.map_eq_some', Prod.mk.injEq] at h
  obtain ⟨s, hs, h1, h2, h3, h4, h5⟩ := h
  have g5 : s.all_tracers ≠ .garbage := by rw [h5]; decide
  have g6 : s.all_tracers ≠ .node 0 := by rw [h5]; decide
  exact ⟨s, hs, h1, h2, h3, h4, g5, g6,
    reentry_after_destruction sample_codec 0 s h1 h2 h3 h4 g5 g6⟩

/-- Counterexample to C9 as stated: after a dump pass the three cursors of
`sample_tracer` are all 2, and the chain holds; `RefreshBuffer` then resets
`buf_ptr` and `signal_saved_buf_ptr` to 0 and leaves `signal_snapshot_buf_ptr = 2`. -/
theorem refresh_breaks_cursor_chain :
    (let t := (run_tracer sample_codec [.dump_pass] (sample_globals, sample_tracer)).2
     (t.signal_saved_buf_ptr, t.signal_snapshot_buf_ptr, t.buf_ptr)) = (2, 2, 2) ∧
    (let t := (run_tracer sample_codec [.dump_pass, .refresh_buffer]
        (sample_globals, sample_tracer)).2
     (t.signal_saved_buf_ptr, t.signal_snapshot_buf_ptr, t.buf_ptr)) = (0, 2, 0) ∧
    ¬ ((run_tracer sample_codec [.dump_pass, .refresh_buffer]
          (sample_globals, sample_tracer)).2.signal_snapshot_buf_ptr ≤
        (run_tracer sample_codec [.dump_pass, .refresh_buffer]
          (sample_globals, sample_tracer)).2.buf_ptr) := by
  decide

/-- Witness of C9 (amended), on `sample_cursor_ops`, and on its first three operations,
none of which flushes. -/
theorem cursor_invariant_witness :
    sample_tracer.signal_saved_buf_ptr ≤ sample_tracer.signal_snapshot_buf_ptr ∧
    sample_tracer.signal_saved_buf_ptr ≤ sample_tracer.buf_ptr ∧
    sample_tracer.signal_snapshot_buf_ptr ≤ sample_tracer.buf_ptr ∧
    no_flush sample_codec (sample_cursor_ops.take 3) (sample_globals, sample_tracer) = true ∧
    ((run_cursors sample_codec sample_cursor_ops
          (sample_globals, sample_tracer)).2.signal_saved_buf_ptr ≤
        (run_cursors sample_codec sample_cursor_ops
          (sample_globals, sample_tracer)).2.signal_snapshot_buf_ptr ∧
      (run_cursors sample_codec sample_cursor_ops
          (sample_globals, sample_tracer)).2.signal_saved_buf_ptr ≤
        (run_cursors sample_codec sample_cursor_ops
          (sample_globals, sample_tracer)).2.buf_ptr) ∧
    (run_cursors sample_codec (sample_cursor_ops.take 3)
        (sample_globals, sample_tracer)).2.signal_snapshot_buf_ptr ≤
      (run_cursors sample_codec (sample_cursor_ops.take 3)
        (sample_globals, sample_tracer)).2.buf_ptr :=
  ⟨by decide, by decide, by decide, by decide,
    ((cursor_invariant sample_codec sample_globals sample_tracer sample_ops (by decide)
      (by decide)).1 sample_cursor_ops).1,
    ((cursor_invariant sample_codec sample_globals sample_tracer sample_ops (by decide)
      (by decide)).1 (sample_cursor_ops.take 3)).2 (by decide) (by decide)⟩

/-- The first refresh of the process: the event carries base 0, `token_base` is 1024
and `counter` is 1024, so that `token_base - counter` is the base. -/
theorem refresh_leaves_block_end_witness :
    (zero_tracer 64).buf_end ≤ (zero_tracer 64).buf_storage.length ∧
    sample_globals.token_counter + kTokenSize < U64 ∧
    ((MallocTracer.RefreshTokenAndDec sample_codec sample_globals
        (zero_tracer 64)).2.emitted_token_refresh sample_codec sample_globals.token_counter ∧
      (MallocTracer.RefreshTokenAndDec sample_codec sample_globals (zero_tracer 64)).2.token_base =
        sample_globals.token_counter + kTokenSize ∧
      (MallocTracer.RefreshTokenAndDec sample_codec sample_globals (zero_tracer 64)).2.counter =
        kTokenSize ∧
      sub64 (MallocTracer.RefreshTokenAndDec sample_codec sample_globals (zero_tracer 64)).2.token_base
        (MallocTracer.RefreshTokenAndDec sample_codec sample_globals (zero_tracer 64)).2.counter =
        sample_globals.token_counter) :=
  ⟨by decide, by decide,
    (refresh_leaves_block_end sample_codec sample_globals (zero_tracer 64) (by decide)
      (by decide)).1⟩

/-- C3. After threads 0 and 1 got their tracers and thread 1 excluded itself, the
fourth destructor call of thread 0 unlinks through the stale `pprev` that the
exclusion left in thread 0's node: the node of thread 0 (now with `ptr = NULL` and
poisoned links) is still what `all_tracers_` points to, and the next dump pass
dereferences its null `ptr`. -/
theorem exclude_leaves_stale_pprev :
    (run sample_codec (sample_exclusion.take 3) sample_process).map
        (fun s => (reachable s 4, (s.instance_ 0).pprev, (s.instance_ 1).pprev)) =
      some ([0], .next_of 1, .null) ∧
    (run sample_codec sample_exclusion sample_process).map
        (fun s => (reachable s 4, s.all_tracers, (s.instance_ 0).ptr, (s.instance_ 0).pprev,
          s.had_tracer 0)) =
      some ([0], .node 0, none, .garbage, true) ∧
    (run sample_codec (sample_exclusion ++ [.DumpEverything 4]) sample_process).isSome = false := by
  decide

end tcmalloc
